import Mathlib

/-!
Shallow embedding of the parcel-locker station ("postomat") from
`src/lab1` (Postomat.py, Locker.py, Parcel.py, Person.py, Validator.py).

Modelling conventions:
* `datetime.now()` is an abstract tick `now : Nat` passed to every
  operation; `timedelta(days=3)` is `+ 3` in the same unit.
* Python dicts become association lists in insertion order
  (`alookup` / `aset` / `amodify` / `aremove`).
* A `Locker.current_parcel` reference to a shared mutable `Parcel`
  object becomes the parcel's tracking key into the station's
  `parcels` index (the canonical heap for parcel objects).
* Sources of randomness (locker-bank shuffle, repair rolls,
  `random.choice`, tracking-code drawing) become explicit parameters,
  so theorems quantify over all outcomes the Python code can draw.
* Raised exceptions that the code catches (`LockerError`) become
  `Except String`; station operations translate them to
  `(false, message)` results exactly as the source does.
-/

namespace PostomatModel

/-- `ParcelSize` enum (S/M/L). -/
inductive ParcelSize where
  | SMALL
  | MEDIUM
  | LARGE
deriving DecidableEq, Repr

/-- `ParcelStatus` enum. -/
inductive ParcelStatus where
  | CREATED
  | IN_POSTOMAT
  | DELIVERED
  | EXPIRED
deriving DecidableEq, Repr

/-- `SecurityLevel` enum. -/
inductive SecurityLevel where
  | LOW
  | MEDIUM
  | HIGH
deriving DecidableEq, Repr

/-- `size_order` dictionary used by `Locker.put_parcel` and
`Postomat.find_available_locker`. -/
def size_order : ParcelSize → Nat
  | ParcelSize.SMALL => 1
  | ParcelSize.MEDIUM => 2
  | ParcelSize.LARGE => 3

/-- `Person` (base of `Sender`/`Recipient`): validated fields plus the
derived identifier `id` computed by `Person._generate_id` (an md5 digest
over name+phone+email; the digest itself is opaque here, the code only
ever compares `id` values for equality). -/
structure Person where
  name : String
  phone : String
  email : String
  id : String
deriving DecidableEq, Repr

/-- `Parcel` object state (Parcel.py).  `storage_days` is fixed to 3 in
`Parcel.__init__`. -/
structure Parcel where
  tracking_number : String
  sender : Person
  recipient : Person
  size : ParcelSize
  description : String
  status : ParcelStatus
  placed_at : Option Nat
  delivered_at : Option Nat
  locker_number : Option Nat
  storage_days : Nat
  storage_until : Option Nat
deriving DecidableEq, Repr

/-- `Locker` object state (Locker.py).  `current_parcel` holds the
tracking key of the resident parcel (reference into the station's
parcel heap). -/
structure Locker where
  number : Nat
  size : ParcelSize
  is_occupied : Bool
  is_functional : Bool
  current_parcel : Option String
  last_maintenance : Option Nat
deriving DecidableEq, Repr

/-- One entry of `Postomat.security_alerts`. -/
structure Alert where
  timestamp : Nat
  alert_type : String
  description : String
deriving DecidableEq, Repr

/-- One `Notification` as recorded in `Postomat.notifications`
(`Notification.send` in this code base always succeeds, setting
`is_sent = True`). -/
structure NotificationRec where
  recipient : Person
  tracking : String
  message : String
  is_sent : Bool
deriving DecidableEq, Repr

/-- The maintenance report dict built by `Postomat.perform_maintenance`. -/
structure MaintReport where
  timestamp : Nat
  technician : String
  lockers_checked : Nat
  broken_before : Nat
  broken_after : Nat
  lockers_repaired : Nat
  failed_repairs : Nat
  issues : List String
deriving DecidableEq, Repr

/-- `Postomat` state (Postomat.py `__init__`). -/
structure Station where
  id : String
  address : String
  security_level : SecurityLevel
  is_operational : Bool
  security_alerts : List Alert
  user_operations : List (String × Nat)
  lockers : List Locker
  parcels : List (String × Parcel)
  notifications : List NotificationRec
  maintenance_log : List MaintReport
deriving DecidableEq, Repr

/-! Association-list operations mirroring Python dict behaviour
(insertion order, unique keys). -/

/-- Dict lookup `m.get(k)` / `m[k]`. -/
def alookup {α : Type} : List (String × α) → String → Option α
  | [], _ => none
  | (k0, v0) :: rest, k => if k0 = k then some v0 else alookup rest k

/-- Dict write `m[k] = v`: replaces in place if the key exists,
appends otherwise. -/
def aset {α : Type} : List (String × α) → String → α → List (String × α)
  | [], k, v => [(k, v)]
  | (k0, v0) :: rest, k, v =>
      if k0 = k then (k0, v) :: rest else (k0, v0) :: aset rest k v

/-- In-place mutation of the object bound to key `k` (Python mutates the
shared object; the dict binding and its position are untouched). -/
def amodify {α : Type} : List (String × α) → String → (α → α) →
    List (String × α)
  | [], _, _ => []
  | (k0, v0) :: rest, k, f =>
      (if k0 = k then (k0, f v0) else (k0, v0)) :: amodify rest k f

/-- Dict delete `del m[k]`. -/
def aremove {α : Type} (m : List (String × α)) (k : String) :
    List (String × α) :=
  m.filter (fun kv => kv.1 ≠ k)

/-! Parcel operations (Parcel.py). -/

/-- `Parcel.place_in_locker`: sets status, placement time, locker
number, and the storage deadline `now + storage_days`. -/
def place_in_locker (p : Parcel) (locker_number : Nat) (now : Nat) : Parcel :=
  { p with
    status := ParcelStatus.IN_POSTOMAT
    placed_at := some now
    locker_number := some locker_number
    storage_until := some (now + p.storage_days) }

/-- `Parcel.deliver`. -/
def deliverParcel (p : Parcel) (now : Nat) : Parcel :=
  { p with status := ParcelStatus.DELIVERED, delivered_at := some now }

/-- `Parcel.is_expired`: `False` with no deadline, else
`datetime.now() > storage_until` (strict). -/
def is_expired (p : Parcel) (now : Nat) : Bool :=
  match p.storage_until with
  | none => false
  | some d => decide (d < now)

/-! Locker operations (Locker.py).  `LockerError` is `Except.error`. -/

/-- `Locker.open`. -/
def Locker.openL (l : Locker) : Except String Bool :=
  if !l.is_functional then
    Except.error ("Ячейка " ++ toString l.number ++ " неисправна")
  else Except.ok true

/-- `Locker.put_parcel`: guards, then marks occupied, binds the parcel
reference and triggers `place_in_locker` on the parcel. -/
def put_parcel (l : Locker) (p : Parcel) (now : Nat) :
    Except String (Locker × Parcel) :=
  if !l.is_functional then
    Except.error ("Ячейка " ++ toString l.number ++ " неисправна")
  else if l.is_occupied then
    Except.error ("Ячейка " ++ toString l.number ++ " уже занята")
  else if size_order l.size < size_order p.size then
    Except.error ("Посылка слишком большая для ячейки " ++ toString l.number)
  else
    Except.ok
      ({ l with is_occupied := true, current_parcel := some p.tracking_number },
       place_in_locker p l.number now)

/-- `Locker.take_parcel`: guards, clears occupancy and the resident
reference, returns the (possibly absent) reference it held. -/
def take_parcel (l : Locker) : Except String (Locker × Option String) :=
  if !l.is_functional then
    Except.error ("Ячейка " ++ toString l.number ++ " неисправна")
  else if !l.is_occupied then
    Except.error ("Ячейка " ++ toString l.number ++ " пуста")
  else
    Except.ok ({ l with is_occupied := false, current_parcel := none },
               l.current_parcel)

/-- `Locker.repair`: unconditional. -/
def repairLocker (l : Locker) (now : Nat) : Locker :=
  { l with is_functional := true, last_maintenance := some now }

/-! Station construction and helper scans (Postomat.py). -/

/-- Lockers produced by `_create_lockers` after the shuffle: numbered
consecutively from `n`, empty and functional.  The post-shuffle size
sequence is the parameter `sizes` (the Python code draws it as a random
permutation of a 50/30/20 S/M/L distribution; the model quantifies over
every size sequence). -/
def mkLockersFrom (n : Nat) : List ParcelSize → List Locker
  | [] => []
  | s :: rest =>
      { number := n
        size := s
        is_occupied := false
        is_functional := true
        current_parcel := none
        last_maintenance := none } :: mkLockersFrom (n + 1) rest

/-- `Postomat.__init__` with the post-shuffle locker size sequence as a
parameter. -/
def mkStation (sid addr : String) (sizes : List ParcelSize)
    (level : SecurityLevel) : Station :=
  { id := sid
    address := addr
    security_level := level
    is_operational := true
    security_alerts := []
    user_operations := []
    lockers := mkLockersFrom 1 sizes
    parcels := []
    notifications := []
    maintenance_log := [] }

/-- The availability test of `find_available_locker`'s loop body:
unoccupied, functional, size at least the required size. -/
def lockerOk (required : ParcelSize) (l : Locker) : Bool :=
  !l.is_occupied && l.is_functional && decide (size_order required ≤ size_order l.size)

/-- `Postomat.find_available_locker`: first locker in bank order
passing `lockerOk`. -/
def find_available_locker (ls : List Locker) (required : ParcelSize) :
    Option Locker :=
  match ls with
  | [] => none
  | l :: rest =>
      if lockerOk required l then some l else find_available_locker rest required

/-- Replace the first element satisfying `pred` by `f` of it (Python
mutates the single object found by the same first-match scan). -/
def updateFirst (pred : Locker → Bool) (f : Locker → Locker) :
    List Locker → List Locker
  | [] => []
  | l :: rest =>
      if pred l then f l :: rest else l :: updateFirst pred f rest

/-! Security subsystem (Postomat.py `_check_security`,
`_log_security_alert`, `reset_security`). -/

/-- `_log_security_alert`: append the alert; on HIGH level an
`unauthorized_access` or `suspicious_activity` alert locks the station. -/
def log_security_alert (st : Station) (alert_type description : String)
    (now : Nat) : Station :=
  let st :=
    { st with security_alerts :=
        st.security_alerts ++
          [{ timestamp := now
             alert_type := alert_type
             description := description }] }
  if st.security_level = SecurityLevel.HIGH ∧
      (alert_type = "unauthorized_access" ∨ alert_type = "suspicious_activity")
  then { st with is_operational := false }
  else st

/-- `_check_security`: refuse when not operational, bump the user's
counter, and above 50 operations log `suspicious_activity` (which on
HIGH also denies the operation). -/
def check_security (st : Station) (user_id : String) (now : Nat) :
    Station × Bool × String :=
  if !st.is_operational then
    (st, false, "Почтомат заблокирован по соображениям безопасности")
  else
    let c := (alookup st.user_operations user_id).getD 0 + 1
    let st := { st with user_operations := aset st.user_operations user_id c }
    if 50 < c then
      let st := log_security_alert st "suspicious_activity"
        ("Пользователь " ++ user_id ++ " выполнил " ++ toString c ++ " операций")
        now
      if st.security_level = SecurityLevel.HIGH then
        (st, false, "Обнаружена подозрительная активность. Операция заблокирована")
      else (st, true, "OK")
    else (st, true, "OK")

/-- `reset_security`. -/
def reset_security (st : Station) : Station × Bool × String :=
  ({ st with
      is_operational := true
      security_alerts := []
      user_operations := [] },
   true, "Система безопасности сброшена")

/-- `_notify_recipient`: `Notification.send` in this code base always
sets `is_sent = True`, so the notification is recorded and returned
successfully. -/
def notify_recipient_internal (st : Station) (recipient : Person)
    (tracking message : String) : Station × Bool :=
  ({ st with notifications :=
      st.notifications ++
        [{ recipient := recipient
           tracking := tracking
           message := message
           is_sent := true }] },
   true)

/-! The four public station operations. -/

/-- `Postomat.send_parcel`: security gate, operational and duplicate
guards, first-fit locker scan, binding, index registration (only after
the binding succeeded), best-effort notification.  `LockerError` from
the binding is translated to `(False, message)`. -/
def send_parcel (st : Station) (p : Parcel) (user_id : String) (now : Nat) :
    Station × Bool × String :=
  let sc := check_security st user_id now
  let st := sc.1
  if !sc.2.1 then (st, false, sc.2.2)
  else if !st.is_operational then (st, false, "Почтомат временно не работает")
  else if (alookup st.parcels p.tracking_number).isSome then
    (st, false, "Посылка " ++ p.tracking_number ++ " уже находится в почтомате")
  else
    match find_available_locker st.lockers p.size with
    | none => (st, false, "Нет свободных ячеек подходящего размера")
    | some l =>
        match put_parcel l p now with
        | Except.error e => (st, false, "Ошибка ячейки: " ++ e)
        | Except.ok (l2, p2) =>
            let st := { st with
              lockers := updateFirst (lockerOk p.size) (fun _ => l2) st.lockers
              parcels := aset st.parcels p2.tracking_number p2 }
            let st := (notify_recipient_internal st p2.recipient
              p2.tracking_number
              ("Посылка " ++ p2.tracking_number ++
                " поступила в почтомат по адресу " ++ st.address ++
                ". Ячейка " ++ toString l2.number)).1
            (st, true,
             "Посылка " ++ p2.tracking_number ++ " отправлена в ячейку " ++
               toString l2.number)

/-- `Postomat.receive_parcel`: gate, lookup, authorization (with the
`unauthorized_access` alert side effect), status and lazy-expiry
checks, locker lookup by number, open/take/close, deliver, index
removal.  The source's `received_parcel.deliver()` on a `None`
reference would raise an uncaught `AttributeError`; that (reachably
impossible) branch is modelled as a distinguished failure result. -/
def receive_parcel (st : Station) (tracking_number : String)
    (recipient : Person) (user_id : String) (now : Nat) :
    Station × Bool × String × Option Parcel :=
  let sc := check_security st user_id now
  let st := sc.1
  if !sc.2.1 then (st, false, sc.2.2, none)
  else if !st.is_operational then
    (st, false, "Почтомат временно не работает", none)
  else
    match alookup st.parcels tracking_number with
    | none => (st, false, "Посылка " ++ tracking_number ++ " не найдена", none)
    | some parcel =>
        if parcel.recipient.id ≠ recipient.id then
          (log_security_alert st "unauthorized_access"
            ("Попытка получения " ++ tracking_number ++ " неполучателем") now,
           false, "У вас нет прав на получение этой посылки", none)
        else if parcel.status ≠ ParcelStatus.IN_POSTOMAT then
          (st, false, "Посылка не готова к выдаче", none)
        else if is_expired parcel now then
          ({ st with parcels :=
              (amodify st.parcels tracking_number
                (fun q => { q with status := ParcelStatus.EXPIRED })) },
           false, "Срок хранения посылки истек", none)
        else
          match st.lockers.find? (fun l => parcel.locker_number = some l.number) with
          | none => (st, false, "Ошибка: ячейка не найдена", none)
          | some lk =>
              if !lk.is_functional then
                (st, false,
                 "Ошибка при получении: Ячейка " ++ toString lk.number ++
                   " неисправна", none)
              else if !lk.is_occupied then
                (st, false,
                 "Ошибка при получении: Ячейка " ++ toString lk.number ++
                   " пуста", none)
              else
                match lk.current_parcel with
                | none => (st, false, "AttributeError", none)
                | some t2 =>
                    let delivered :=
                      (alookup st.parcels t2).map (fun q => deliverParcel q now)
                    let st := { st with
                      lockers :=
                        (updateFirst
                          (fun l => parcel.locker_number = some l.number)
                          (fun l => { l with
                            is_occupied := false
                            current_parcel := none })
                          st.lockers)
                      parcels :=
                        (aremove
                          (amodify st.parcels t2 (fun q => deliverParcel q now))
                          tracking_number) }
                    (st, true, "Посылка " ++ tracking_number ++ " получена",
                     delivered)

/-- `Postomat.notify_recipient` (public): gate, lookup, default
message, internal best-effort notification. -/
def notify_recipient (st : Station) (tracking_number custom_message : String)
    (user_id : String) (now : Nat) : Station × Bool × String :=
  let sc := check_security st user_id now
  let st := sc.1
  if !sc.2.1 then (st, false, sc.2.2)
  else
    match alookup st.parcels tracking_number with
    | none => (st, false, "Посылка " ++ tracking_number ++ " не найдена")
    | some parcel =>
        let message :=
          if custom_message = "" then
            "Напоминание: посылка " ++ tracking_number ++ " ожидает в почтомате"
          else custom_message
        let r := notify_recipient_internal st parcel.recipient
          tracking_number message
        if r.2 then
          (r.1, true, "Уведомление отправлено " ++ parcel.recipient.name)
        else (r.1, false, "Не удалось отправить уведомление")

/-- `Postomat.check_expired_parcels`: one pass over the parcel index;
every `IN_POSTOMAT` parcel past its deadline is flipped to `EXPIRED`
in place (it stays indexed and keeps its locker) and the sender is
notified. -/
def sweepExpired (now : Nat) :
    List (String × Parcel) →
      List (String × Parcel) × List Parcel × List NotificationRec
  | [] => ([], [], [])
  | (t, q) :: rest =>
      let r := sweepExpired now rest
      if is_expired q now && q.status = ParcelStatus.IN_POSTOMAT then
        let q2 := { q with status := ParcelStatus.EXPIRED }
        ((t, q2) :: r.1, q2 :: r.2.1,
         { recipient :=
             { name := q.sender.name
               phone := q.sender.phone
               email := q.sender.email
               id := q.sender.id }
           tracking := t
           message := "Посылка " ++ t ++ " не получена. Срок хранения истек."
           is_sent := true } :: r.2.2)
      else ((t, q) :: r.1, r.2.1, r.2.2)

/-- `Postomat.check_expired_parcels`. -/
def check_expired_parcels (st : Station) (now : Nat) :
    Station × List Parcel :=
  let r := sweepExpired now st.parcels
  ({ st with parcels := r.1, notifications := st.notifications ++ r.2.2 },
   r.2.1)

/-! Maintenance (Postomat.py `perform_maintenance`,
`break_random_locker`). -/

/-- The repair loop of `perform_maintenance`.  `rolls k` stands for the
`k`-th draw of `random.random() < 0.85` (one draw per broken locker, in
bank order).  Returns the updated bank, the repaired and failed counts,
the issue lines of the loop, and the next roll index. -/
def maintLoop (rolls : Nat → Bool) (now : Nat) :
    List Locker → Nat → List Locker × Nat × Nat × List String × Nat
  | [], k => ([], 0, 0, [], k)
  | l :: rest, k =>
      if !l.is_functional then
        if rolls k then
          let r := maintLoop rolls now rest (k + 1)
          (repairLocker l now :: r.1, r.2.1 + 1, r.2.2.1,
           ("Ячейка " ++ toString l.number ++ " отремонтирована") :: r.2.2.2.1,
           r.2.2.2.2)
        else
          let r := maintLoop rolls now rest (k + 1)
          (l :: r.1, r.2.1, r.2.2.1 + 1,
           ("Ячейка " ++ toString l.number ++ " требует замены") :: r.2.2.2.1,
           r.2.2.2.2)
      else
        let r := maintLoop rolls now rest k
        ({ l with last_maintenance := some now } :: r.1, r.2.1, r.2.2.1,
         r.2.2.2.1, r.2.2.2.2)

/-- `Postomat.perform_maintenance`: rejects an empty technician name
(`ValueError`, modelled as `Except.error`), snapshots the broken
lockers, runs the repair loop, counts the remaining broken lockers and
appends the report. -/
def perform_maintenance (st : Station) (technician : String)
    (rolls : Nat → Bool) (now : Nat) :
    Except String (Station × MaintReport) :=
  if technician = "" then Except.error "Имя техника обязательно"
  else
    let broken_before := st.lockers.filter (fun l => !l.is_functional)
    let pre_issues := broken_before.map
      (fun l => "Ячейка " ++ toString l.number ++ " была неисправна")
    let r := maintLoop rolls now st.lockers 0
    let report : MaintReport :=
      { timestamp := now
        technician := technician
        lockers_checked := st.lockers.length
        broken_before := broken_before.length
        broken_after := (r.1.filter (fun l => !l.is_functional)).length
        lockers_repaired := r.2.1
        failed_repairs := r.2.2.1
        issues := pre_issues ++ r.2.2.2.1 }
    Except.ok
      ({ st with
          lockers := r.1
          maintenance_log := st.maintenance_log ++ [report] },
       report)

/-- Flip the locker at position `n` of the bank to non-functional
(the in-place mutation `locker.is_functional = False`). -/
def setBrokenAt : List Locker → Nat → List Locker
  | [], _ => []
  | l :: rest, 0 => { l with is_functional := false } :: rest
  | l :: rest, n + 1 => l :: setBrokenAt rest n

/-- `Postomat.break_random_locker`: `random.choice` over the functional
unoccupied lockers, modelled by the index parameter `choice` reduced
modulo the number of eligible lockers; flips that locker to
non-functional and logs a `manual_failure` alert. -/
def break_random_locker (st : Station) (choice : Nat) (now : Nat) :
    Station × Bool × String :=
  let eligible := (List.range st.lockers.length).filter
    (fun i => match st.lockers.get? i with
      | some l => l.is_functional && !l.is_occupied
      | none => false)
  match eligible with
  | [] => (st, false, "Нет исправных свободных ячеек для поломки")
  | e0 :: erest =>
      let i := (e0 :: erest).getD (choice % (e0 :: erest).length) e0
      let num := ((st.lockers.get? i).map Locker.number).getD 0
      let st := { st with lockers := setBrokenAt st.lockers i }
      let st := log_security_alert st "manual_failure"
        ("Ячейка " ++ toString num ++ " принудительно сломана") now
      (st, true, "Ячейка " ++ toString num ++ " сломана")

/-! Validator (Validator.py): phone validation and normalization.
`re.sub(r'[\s\-\(\)]', '', phone)` strips ASCII whitespace, dashes and
parentheses; the four `re.match` patterns become structural matchers
over the cleaned character list. -/

/-- Allowed Belarusian operator codes. -/
def BELARUSIAN_OPERATORS : List String := ["24", "25", "29", "33", "44"]

/-- Characters removed by the cleaning `re.sub`. -/
def phoneStripChar (c : Char) : Bool :=
  c = ' ' || c = '\t' || c = '\n' || c = '\r' || c = '\x0b' || c = '\x0c' ||
    c = '-' || c = '(' || c = ')'

/-- The cleaned phone as a character list. -/
def cleanedPhone (phone : String) : List Char :=
  phone.toList.filter (fun c => !phoneStripChar c)

/-- `^\+375\d{9}$`. -/
def matchPlus375 : List Char → Bool
  | '+' :: '3' :: '7' :: '5' :: rest =>
      decide (rest.length = 9) && rest.all Char.isDigit
  | _ => false

/-- `^80\d{9}$`. -/
def match80 : List Char → Bool
  | '8' :: '0' :: rest => decide (rest.length = 9) && rest.all Char.isDigit
  | _ => false

/-- `^375\d{9}$`. -/
def match375 : List Char → Bool
  | '3' :: '7' :: '5' :: rest => decide (rest.length = 9) && rest.all Char.isDigit
  | _ => false

/-- `^8\d{9}$` (with the extra `len(cleaned) == 10` test). -/
def match8only : List Char → Bool
  | '8' :: rest => decide (rest.length = 9) && rest.all Char.isDigit
  | _ => false

/-- `Validator.validate_phone`: branch order and operator-code checks
exactly as in the source (note: the `+375…` branch performs no
operator-code check). -/
def validate_phone (phone : String) : Bool :=
  let cs := cleanedPhone phone
  let check : Option (List Char) :=
    if matchPlus375 cs then some cs
    else if match80 cs then
      if String.mk ((cs.drop 2).take 2) ∈ BELARUSIAN_OPERATORS then
        some (['+', '3', '7', '5'] ++ cs.drop 2)
      else none
    else if match375 cs then
      if String.mk ((cs.drop 3).take 2) ∈ BELARUSIAN_OPERATORS then
        some ('+' :: cs)
      else none
    else if match8only cs then
      if String.mk ((cs.drop 1).take 2) ∈ BELARUSIAN_OPERATORS then
        some (['+', '3', '7', '5'] ++ cs.drop 1)
      else none
    else none
  match check with
  | none => false
  | some cp => matchPlus375 cp

/-- `Validator.normalize_phone` (branch order of the source: `+375`,
`80`, `8` with length 10, `375`, else return the cleaned input). -/
def normalize_phone (phone : String) : String :=
  let cs := cleanedPhone phone
  if matchPlus375 cs then String.mk cs
  else if match80 cs then String.mk (['+', '3', '7', '5'] ++ cs.drop 2)
  else if match8only cs then String.mk (['+', '3', '7', '5'] ++ cs.drop 1)
  else if match375 cs then String.mk ('+' :: cs)
  else String.mk cs

/-! Tracking-code generation (Parcel.py `_generate_unique_tracking`).
`random.choice(TRACKING_PREFIXES)` and the ten `random.randint(0, 9)`
draws of attempt `k` are modelled by the streams `pick` and `digit`;
the unbounded retry loop carries explicit fuel. -/

/-- `Parcel.TRACKING_PREFIXES`. -/
def TRACKING_PREFIXES : List String :=
  ["ABC", "XYZ", "TRK", "PKG", "BOX", "SHP", "DLV", "POS"]

/-- `str(random.randint(0, 9))` as a character. -/
def digitChar (n : Nat) : Char := Char.ofNat (48 + n % 10)

/-- The ten-digit suffix of attempt with digit-draw base `base`. -/
def tenDigits (digit : Nat → Nat) (base : Nat) : List Char :=
  (List.range 10).map (fun j => digitChar (digit (base + j)))

/-- The candidate code of attempt `k`: a drawn prefix plus ten drawn
digits. -/
def trackingCandidate (pick digit : Nat → Nat) (k : Nat) : String :=
  TRACKING_PREFIXES.getD (pick k % TRACKING_PREFIXES.length) "ABC" ++
    String.mk (tenDigits digit (10 * k))

/-- The `while True` retry loop of `_generate_unique_tracking`, with
fuel: draw a candidate, retry while it is in the uniqueness set, else
add it to the set and return it. -/
def genTrackingAux (pick digit : Nat → Nat) (existing : List String) :
    Nat → Nat → Option (String × List String × Nat)
  | 0, _ => none
  | fuel + 1, k =>
      let t := trackingCandidate pick digit k
      if t ∈ existing then genTrackingAux pick digit existing fuel (k + 1)
      else some (t, t :: existing, k + 1)

/-- `n` consecutive in-process generation calls sharing the uniqueness
set; returns the codes in call order, the final set and the next
attempt index. -/
def genTrackingN (pick digit : Nat → Nat) (fuel : Nat) :
    Nat → Nat → List String → Option (List String × List String × Nat)
  | 0, k, existing => some ([], existing, k)
  | n + 1, k, existing =>
      match genTrackingAux pick digit existing fuel k with
      | none => none
      | some (t, ex2, k2) =>
          match genTrackingN pick digit fuel n k2 ex2 with
          | none => none
          | some (ts, ex3, k3) => some (t :: ts, ex3, k3)

/-- The code format of the spec: a prefix from the fixed set followed
by exactly 10 decimal digits. -/
def isTrackingFormat (t : String) : Prop :=
  ∃ s ∈ TRACKING_PREFIXES, ∃ ds : List Char,
    ds.length = 10 ∧ (∀ c ∈ ds, c.isDigit = true) ∧ t = s ++ String.mk ds

/-! Reachability: the public operations as a step relation. -/

/-- One public operation of the station, with arbitrary arguments,
clock values and random draws. -/
inductive Step : Station → Station → Prop where
  | send (st : Station) (p : Parcel) (u : String) (now : Nat) :
      Step st (send_parcel st p u now).1
  | receive (st : Station) (t : String) (r : Person) (u : String) (now : Nat) :
      Step st (receive_parcel st t r u now).1
  | notify (st : Station) (t m u : String) (now : Nat) :
      Step st (notify_recipient st t m u now).1
  | maintenance (st : Station) (tech : String) (rolls : Nat → Bool) (now : Nat) :
      Step st
        (match perform_maintenance st tech rolls now with
         | Except.ok r => r.1
         | Except.error _ => st)
  | breakL (st : Station) (choice now : Nat) :
      Step st (break_random_locker st choice now).1
  | reset (st : Station) : Step st (reset_security st).1
  | sweep (st : Station) (now : Nat) : Step st (check_expired_parcels st now).1

/-- Station states reachable from a freshly constructed station through
the public operations. -/
inductive Reachable : Station → Prop where
  | init (sid addr : String) (sizes : List ParcelSize) (level : SecurityLevel) :
      Reachable (mkStation sid addr sizes level)
  | step {st st2 : Station} : Reachable st → Step st st2 → Reachable st2

/-! Basic lemmas about the dict model. -/

theorem alookup_aset_self {α : Type} (m : List (String × α)) (k : String)
    (v : α) : alookup (aset m k v) k = some v := by
  induction m with
  | nil => simp [aset, alookup]
  | cons kv rest ih =>
      rcases kv with ⟨k0, v0⟩
      by_cases h : k0 = k
      · simp [aset, alookup, h]
      · simp [aset, alookup, h, ih]

theorem alookup_aset_ne {α : Type} (m : List (String × α)) (k k' : String)
    (v : α) (h : k' ≠ k) : alookup (aset m k v) k' = alookup m k' := by
  have hne : ¬k = k' := fun hh => h hh.symm
  induction m with
  | nil => simp [aset, alookup, hne]
  | cons kv rest ih =>
      rcases kv with ⟨k0, v0⟩
      by_cases h0 : k0 = k
      · subst h0
        simp [aset, alookup, hne]
      · simp [aset, alookup, h0, ih]

theorem amodify_cons {α : Type} (k0 : String) (v0 : α)
    (rest : List (String × α)) (k : String) (f : α → α) :
    amodify ((k0, v0) :: rest) k f =
      (if k0 = k then (k0, f v0) else (k0, v0)) :: amodify rest k f := rfl

theorem alookup_amodify_self {α : Type} (m : List (String × α)) (k : String)
    (f : α → α) : alookup (amodify m k f) k = (alookup m k).map f := by
  induction m with
  | nil => simp [amodify, alookup]
  | cons kv rest ih =>
      rcases kv with ⟨k0, v0⟩
      by_cases h : k0 = k
      · rw [amodify_cons, if_pos h]
        simp [alookup, h]
      · rw [amodify_cons, if_neg h]
        simp [alookup, h, ih]

theorem alookup_amodify_ne {α : Type} (m : List (String × α)) (k k' : String)
    (f : α → α) (h : k' ≠ k) :
    alookup (amodify m k f) k' = alookup m k' := by
  have hne : ¬k = k' := fun hh => h hh.symm
  induction m with
  | nil => simp [amodify, alookup]
  | cons kv rest ih =>
      rcases kv with ⟨k0, v0⟩
      by_cases h0 : k0 = k
      · subst h0
        rw [amodify_cons, if_pos rfl]
        simp [alookup, hne, ih]
      · rw [amodify_cons, if_neg h0]
        simp [alookup, ih]

theorem alookup_aremove_ne {α : Type} (m : List (String × α)) (k k' : String)
    (h : k' ≠ k) : alookup (aremove m k) k' = alookup m k' := by
  have hne : ¬k = k' := fun hh => h hh.symm
  induction m with
  | nil => simp [aremove, alookup]
  | cons kv rest ih =>
      rcases kv with ⟨k0, v0⟩
      by_cases h0 : k0 = k
      · subst h0
        rw [aremove, List.filter_cons_of_neg (by simp)]
        rw [aremove] at ih
        rw [ih]
        simp [alookup, hne]
      · rw [aremove, List.filter_cons_of_pos (by simp [h0])]
        rw [aremove] at ih
        by_cases h1 : k0 = k'
        · simp [alookup, h1]
        · simp only [alookup, if_neg h1]
          simpa using ih

theorem mem_aremove {α : Type} {m : List (String × α)} {k : String}
    {kv : String × α} (h : kv ∈ aremove m k) : kv ∈ m ∧ kv.1 ≠ k := by
  unfold aremove at h
  have h2 := List.of_mem_filter h
  exact ⟨List.mem_of_mem_filter h, by simpa using h2⟩

theorem mem_aset_key {α : Type} {m : List (String × α)} {k : String} {v : α}
    {kv : String × α} (h : kv ∈ aset m k v) : kv ∈ m ∨ kv.1 = k := by
  induction m with
  | nil => simp [aset] at h; simp [h]
  | cons kv0 rest ih =>
      rcases kv0 with ⟨k0, v0⟩
      by_cases h0 : k0 = k
      · subst h0
        simp only [aset, if_pos rfl] at h
        rcases List.mem_cons.mp h with h1 | h1
        · right; rw [h1]
        · left; exact List.mem_cons_of_mem _ h1
      · simp only [aset, if_neg h0] at h
        rcases List.mem_cons.mp h with h1 | h1
        · left; rw [h1]; exact List.mem_cons_self _ _
        · rcases ih h1 with h2 | h2
          · left; exact List.mem_cons_of_mem _ h2
          · right; exact h2

theorem mem_amodify_key {α : Type} {m : List (String × α)} {k : String}
    {f : α → α} {kv : String × α} (h : kv ∈ amodify m k f) :
    ∃ v0, (kv.1, v0) ∈ m := by
  induction m with
  | nil => simp [amodify] at h
  | cons kv0 rest ih =>
      rcases kv0 with ⟨k0, v0⟩
      simp only [amodify] at h
      rcases List.mem_cons.mp h with h1 | h1
      · by_cases h0 : k0 = k
        · rw [if_pos h0] at h1
          refine ⟨v0, ?_⟩
          have : kv.1 = k0 := by rw [h1]
          rw [this]; exact List.mem_cons_self _ _
        · rw [if_neg h0] at h1
          refine ⟨v0, ?_⟩
          have : kv.1 = k0 := by rw [h1]
          rw [this]; exact List.mem_cons_self _ _
      · rcases ih h1 with ⟨v1, h2⟩
        exact ⟨v1, List.mem_cons_of_mem _ h2⟩

/-! C5: expiry boundary. -/

/-- C5: `is_expired` is false when no storage deadline is set, false
when the current time equals the deadline exactly, and true iff the
current time is strictly later than the deadline. -/
theorem is_expired_boundary (p : Parcel) (now : Nat) :
    (p.storage_until = none → is_expired p now = false)
  ∧ (p.storage_until = some now → is_expired p now = false)
  ∧ (∀ d, p.storage_until = some d → (is_expired p now = true ↔ d < now)) := by
  refine ⟨?_, ?_, ?_⟩
  · intro h; simp [is_expired, h]
  · intro h; simp [is_expired, h]
  · intro d h; simp [is_expired, h]

/-- A concrete parcel with storage deadline 7 used to instantiate the
expiry-boundary theorem. -/
def pExpiryDemo : Parcel :=
  { tracking_number := "ABC0000000000"
    sender := { name := "Ivan", phone := "+375291234567", email := "a@b.by", id := "s1" }
    recipient := { name := "Petr", phone := "+375291112233", email := "c@d.by", id := "r1" }
    size := ParcelSize.SMALL
    description := ""
    status := ParcelStatus.IN_POSTOMAT
    placed_at := some 4
    delivered_at := none
    locker_number := some 1
    storage_days := 3
    storage_until := some 7 }

/-- Witness for C5: at the deadline instant 7 the parcel is not
expired, one tick later it is. -/
theorem is_expired_boundary_witness :
    is_expired pExpiryDemo 7 = false ∧ is_expired pExpiryDemo 8 = true := by
  constructor
  · exact (is_expired_boundary pExpiryDemo 7).2.1 rfl
  · exact ((is_expired_boundary pExpiryDemo 8).2.2 7 rfl).mpr (by omega)

/-! C6: the `+375…` branch of `validate_phone` skips the operator-code
check that the function's own docstring (and the other three branches)
require. -/

/-- C6: `validate_phone` accepts `+375111234567` although its operator
code `11` is not in the allow-list — the `+375` branch never checks the
operator code, contradicting the documented validation rule. -/
theorem validate_phone_accepts_unlisted_operator :
    validate_phone "+375111234567" = true
  ∧ "11" ∉ BELARUSIAN_OPERATORS
  ∧ normalize_phone "+375111234567" = "+375111234567" := by
  refine ⟨by decide, by decide, by decide⟩

/-! Lemmas about the security gate. -/

theorem log_alert_parcels (st : Station) (a d : String) (now : Nat) :
    (log_security_alert st a d now).parcels = st.parcels := by
  unfold log_security_alert
  dsimp only
  split <;> rfl

theorem log_alert_lockers (st : Station) (a d : String) (now : Nat) :
    (log_security_alert st a d now).lockers = st.lockers := by
  unfold log_security_alert
  dsimp only
  split <;> rfl

theorem log_alert_alerts (st : Station) (a d : String) (now : Nat) :
    (log_security_alert st a d now).security_alerts =
      st.security_alerts ++
        [{ timestamp := now, alert_type := a, description := d }] := by
  unfold log_security_alert
  dsimp only
  split <;> rfl

theorem log_alert_operational_ne_high (st : Station) (a d : String) (now : Nat)
    (h : st.security_level ≠ SecurityLevel.HIGH) :
    (log_security_alert st a d now).is_operational = st.is_operational := by
  unfold log_security_alert
  dsimp only
  split
  · next hc => exact absurd hc.1 h
  · rfl

theorem log_alert_locks_high (st : Station) (d : String) (now : Nat)
    (h : st.security_level = SecurityLevel.HIGH) :
    (log_security_alert st "suspicious_activity" d now).is_operational
      = false := by
  unfold log_security_alert
  dsimp only
  split
  · rfl
  · next hc =>
      exact absurd ⟨h, Or.inr rfl⟩ hc

theorem check_security_parcels (st : Station) (u : String) (now : Nat) :
    (check_security st u now).1.parcels = st.parcels := by
  unfold check_security
  dsimp only
  split
  · rfl
  · split
    · split
      · exact log_alert_parcels _ _ _ _
      · exact log_alert_parcels _ _ _ _
    · rfl

theorem check_security_lockers (st : Station) (u : String) (now : Nat) :
    (check_security st u now).1.lockers = st.lockers := by
  unfold check_security
  dsimp only
  split
  · rfl
  · split
    · split
      · exact log_alert_lockers _ _ _ _
      · exact log_alert_lockers _ _ _ _
    · rfl

theorem check_security_level (st : Station) (u : String) (now : Nat) :
    (check_security st u now).1.security_level = st.security_level := by
  unfold check_security log_security_alert
  dsimp only
  split
  · rfl
  · split
    · split
      · split <;> rfl
      · split <;> rfl
    · rfl

theorem log_alert_level (st : Station) (a d : String) (now : Nat) :
    (log_security_alert st a d now).security_level = st.security_level := by
  unfold log_security_alert
  dsimp only
  split <;> rfl

/-- Full branch characterization of `_check_security`. -/
theorem check_security_spec (st : Station) (u : String) (now : Nat) :
    (st.is_operational = false →
        check_security st u now =
          (st, false, "Почтомат заблокирован по соображениям безопасности"))
  ∧ (st.is_operational = true →
      ¬ 50 < (alookup st.user_operations u).getD 0 + 1 →
        check_security st u now =
          ({ st with user_operations := (aset st.user_operations u ((alookup st.user_operations u).getD 0 + 1)) },
           true, "OK"))
  ∧ (st.is_operational = true →
      50 < (alookup st.user_operations u).getD 0 + 1 →
      st.security_level = SecurityLevel.HIGH →
        check_security st u now =
          (log_security_alert { st with user_operations := (aset st.user_operations u ((alookup st.user_operations u).getD 0 + 1)) } "suspicious_activity" ("Пользователь " ++ u ++ " выполнил " ++ toString ((alookup st.user_operations u).getD 0 + 1) ++ " операций") now,
           false, "Обнаружена подозрительная активность. Операция заблокирована"))
  ∧ (st.is_operational = true →
      50 < (alookup st.user_operations u).getD 0 + 1 →
      st.security_level ≠ SecurityLevel.HIGH →
        check_security st u now =
          (log_security_alert { st with user_operations := (aset st.user_operations u ((alookup st.user_operations u).getD 0 + 1)) } "suspicious_activity" ("Пользователь " ++ u ++ " выполнил " ++ toString ((alookup st.user_operations u).getD 0 + 1) ++ " операций") now,
           true, "OK")) := by
  refine ⟨?_, ?_, ?_, ?_⟩
  · intro hop
    unfold check_security
    dsimp only
    rw [if_pos (by rw [hop]; rfl)]
  · intro hop hc
    unfold check_security
    dsimp only
    rw [if_neg (by rw [hop]; simp)]
    rw [if_neg hc]
  · intro hop hc hl
    unfold check_security
    dsimp only
    rw [if_neg (by rw [hop]; simp)]
    rw [if_pos hc]
    rw [if_pos (by rw [log_alert_level]; exact hl)]
  · intro hop hc hl
    unfold check_security
    dsimp only
    rw [if_neg (by rw [hop]; simp)]
    rw [if_pos hc]
    rw [if_neg (by rw [log_alert_level]; exact hl)]

theorem bool_eq_false_of_ne_true {b : Bool} (h : ¬b = true) : b = false := by
  cases b
  · rfl
  · exact absurd rfl h

theorem check_security_pass (st : Station) (u : String) (now : Nat)
    (h : (check_security st u now).2.1 = true) :
    st.is_operational = true ∧
      (check_security st u now).1.is_operational = true := by
  rcases check_security_spec st u now with ⟨h1, h2, h3, h4⟩
  by_cases hop : st.is_operational = true
  · by_cases hc : 50 < (alookup st.user_operations u).getD 0 + 1
    · by_cases hl : st.security_level = SecurityLevel.HIGH
      · rw [h3 hop hc hl] at h
        simp at h
      · rw [h4 hop hc hl]
        refine ⟨hop, ?_⟩
        rw [log_alert_operational_ne_high]
        · exact hop
        · exact hl
    · rw [h2 hop hc]
      exact ⟨hop, hop⟩
  · rw [h1 (bool_eq_false_of_ne_true hop)] at h
    simp at h

/-! Lemmas about the locker scan and first-match update. -/

theorem lockerOk_spec {s : ParcelSize} {l : Locker}
    (h : lockerOk s l = true) :
    l.is_occupied = false ∧ l.is_functional = true ∧
      size_order s ≤ size_order l.size := by
  unfold lockerOk at h
  simp only [Bool.and_eq_true, Bool.not_eq_true', decide_eq_true_eq] at h
  exact ⟨h.1.1, h.1.2, h.2⟩

theorem find_available_none {ls : List Locker} {s : ParcelSize}
    (h : find_available_locker ls s = none) :
    ∀ l ∈ ls, lockerOk s l = false := by
  induction ls with
  | nil => intro l hl; simp at hl
  | cons x rest ih =>
      intro l hl
      unfold find_available_locker at h
      by_cases hx : lockerOk s x = true
      · rw [if_pos hx] at h
        simp at h
      · rw [if_neg hx] at h
        rcases List.mem_cons.mp hl with h1 | h1
        · rw [h1]
          exact bool_eq_false_of_ne_true hx
        · exact ih h l h1

theorem find_available_some_split {ls : List Locker} {s : ParcelSize}
    {l : Locker} (h : find_available_locker ls s = some l)
    (f : Locker → Locker) :
    ∃ pre post, ls = pre ++ l :: post ∧
      (∀ x ∈ pre, lockerOk s x = false) ∧ lockerOk s l = true ∧
      updateFirst (lockerOk s) f ls = pre ++ f l :: post := by
  induction ls with
  | nil => simp [find_available_locker] at h
  | cons x rest ih =>
      unfold find_available_locker at h
      by_cases hx : lockerOk s x = true
      · rw [if_pos hx] at h
        refine ⟨[], rest, ?_, ?_, ?_, ?_⟩
        · simpa using (Option.some_injective _ h).symm ▸ rfl
        · intro y hy; simp at hy
        · rw [← Option.some_injective _ h]; exact hx
        · have hl : l = x := (Option.some_injective _ h).symm
          subst hl
          simp [updateFirst, hx]
      · rw [if_neg hx] at h
        rcases ih h with ⟨pre, post, heq, hpre, hl, hupd⟩
        refine ⟨x :: pre, post, ?_, ?_, hl, ?_⟩
        · rw [heq]; rfl
        · intro y hy
          rcases List.mem_cons.mp hy with h1 | h1
          · rw [h1]; exact bool_eq_false_of_ne_true hx
          · exact hpre y h1
        · simp [updateFirst, hx, hupd]

theorem findQ_some_split {pred : Locker → Bool} {ls : List Locker}
    {l : Locker} (h : ls.find? pred = some l) (f : Locker → Locker) :
    ∃ pre post, ls = pre ++ l :: post ∧
      (∀ x ∈ pre, pred x = false) ∧ pred l = true ∧
      updateFirst pred f ls = pre ++ f l :: post := by
  induction ls with
  | nil => simp [List.find?] at h
  | cons x rest ih =>
      rw [List.find?_cons] at h
      by_cases hx : pred x = true
      · rw [hx] at h
        simp only at h
        refine ⟨[], rest, ?_, ?_, ?_, ?_⟩
        · rw [Option.some_injective _ h]; rfl
        · intro y hy; simp at hy
        · rw [← Option.some_injective _ h]; exact hx
        · have hl : l = x := (Option.some_injective _ h).symm
          subst hl
          simp [updateFirst, hx]
      · rw [bool_eq_false_of_ne_true hx] at h
        simp only at h
        rcases ih h with ⟨pre, post, heq, hpre, hl, hupd⟩
        refine ⟨x :: pre, post, ?_, ?_, hl, ?_⟩
        · rw [heq]; rfl
        · intro y hy
          rcases List.mem_cons.mp hy with h1 | h1
          · rw [h1]; exact bool_eq_false_of_ne_true hx
          · exact hpre y h1
        · simp [updateFirst, hx, hupd]

theorem put_parcel_ok {l : Locker} {p : Parcel} (now : Nat)
    (h : lockerOk p.size l = true) :
    put_parcel l p now = Except.ok
      ({ l with is_occupied := true, current_parcel := some p.tracking_number },
       place_in_locker p l.number now) := by
  rcases lockerOk_spec h with ⟨h1, h2, h3⟩
  unfold put_parcel
  rw [h1, h2]
  simp only [Bool.not_true, Bool.false_eq_true, if_false]
  rw [if_neg (Nat.not_lt.mpr h3)]

/-- Branch dichotomy of `send_parcel`: either the call fails and leaves
index and bank unchanged, or all guards passed and the parcel was bound
to the first-fit locker. -/
theorem send_parcel_cases (st : Station) (p : Parcel) (u : String)
    (now : Nat) :
    ((send_parcel st p u now).2.1 = false ∧
      (send_parcel st p u now).1.parcels = st.parcels ∧
      (send_parcel st p u now).1.lockers = st.lockers)
  ∨ ((check_security st u now).2.1 = true ∧
      alookup st.parcels p.tracking_number = none ∧
      ∃ l pre post,
        find_available_locker st.lockers p.size = some l ∧
        st.lockers = pre ++ l :: post ∧
        (∀ x ∈ pre, lockerOk p.size x = false) ∧
        lockerOk p.size l = true ∧
        (send_parcel st p u now).2.1 = true ∧
        (send_parcel st p u now).1.lockers =
          pre ++ { l with is_occupied := true, current_parcel := some p.tracking_number } :: post ∧
        (send_parcel st p u now).1.parcels =
          aset st.parcels p.tracking_number (place_in_locker p l.number now)) := by
  by_cases hgate : (check_security st u now).2.1 = true
  · by_cases hdup : alookup st.parcels p.tracking_number = none
    · cases hfind : find_available_locker st.lockers p.size with
      | none =>
          left
          unfold send_parcel
          dsimp only
          rw [if_neg (by rw [hgate]; simp)]
          rw [if_neg (by rw [(check_security_pass st u now hgate).2]; simp)]
          rw [if_neg (by rw [check_security_parcels, hdup]; simp)]
          rw [check_security_lockers, hfind]
          exact ⟨rfl, check_security_parcels st u now,
            check_security_lockers st u now⟩
      | some l =>
          right
          rcases find_available_some_split hfind
              (fun _ => { l with is_occupied := true, current_parcel := some p.tracking_number }) with
            ⟨pre, post, heq, hpre, hok, hupd⟩
          refine ⟨hgate, hdup, l, pre, post, rfl, heq, hpre, hok, ?_, ?_, ?_⟩
          all_goals
            unfold send_parcel
            dsimp only
            rw [if_neg (by rw [hgate]; simp)]
            rw [if_neg (by rw [(check_security_pass st u now hgate).2]; simp)]
            rw [if_neg (by rw [check_security_parcels, hdup]; simp)]
            rw [check_security_lockers, hfind]
            dsimp only
            rw [put_parcel_ok now hok]
            try dsimp only
          all_goals first
            | exact hupd
            | (rw [check_security_parcels]; rfl)
    · left
      have hdup2 : (alookup st.parcels p.tracking_number).isSome = true := by
        cases hcase : alookup st.parcels p.tracking_number
        · exact absurd hcase hdup
        · rfl
      unfold send_parcel
      dsimp only
      rw [if_neg (by rw [hgate]; simp)]
      rw [if_neg (by rw [(check_security_pass st u now hgate).2]; simp)]
      rw [if_pos (by rw [check_security_parcels]; exact hdup2)]
      exact ⟨rfl, check_security_parcels st u now,
        check_security_lockers st u now⟩
  · left
    have hg := bool_eq_false_of_ne_true hgate
    unfold send_parcel
    dsimp only
    rw [if_pos (by rw [hg]; rfl)]
    exact ⟨rfl, check_security_parcels st u now,
      check_security_lockers st u now⟩

/-! C3: the security-throttling gate. -/

/-- C3: once a user's cumulative gated-operation count exceeds 50, the
gate logs a `suspicious_activity` alert; under HIGH the operation is
denied and the station is locked, under LOW/MEDIUM it is neither denied
nor locked. -/
theorem security_gate_threshold (st : Station) (user : String) (now : Nat)
    (hop : st.is_operational = true)
    (hcount : 50 ≤ (alookup st.user_operations user).getD 0) :
    (check_security st user now).1.security_alerts =
        st.security_alerts ++
          [{ timestamp := now
             alert_type := "suspicious_activity"
             description := "Пользователь " ++ user ++ " выполнил " ++ toString ((alookup st.user_operations user).getD 0 + 1) ++ " операций" }]
  ∧ (st.security_level = SecurityLevel.HIGH →
       (check_security st user now).2.1 = false ∧
         (check_security st user now).1.is_operational = false)
  ∧ (st.security_level ≠ SecurityLevel.HIGH →
       (check_security st user now).2.1 = true ∧
         (check_security st user now).1.is_operational = true) := by
  rcases check_security_spec st user now with ⟨_, _, h3, h4⟩
  have hc : 50 < (alookup st.user_operations user).getD 0 + 1 := by omega
  refine ⟨?_, ?_, ?_⟩
  · by_cases hl : st.security_level = SecurityLevel.HIGH
    · rw [h3 hop hc hl]
      exact log_alert_alerts _ _ _ _
    · rw [h4 hop hc hl]
      exact log_alert_alerts _ _ _ _
  · intro hl
    rw [h3 hop hc hl]
    refine ⟨rfl, ?_⟩
    exact log_alert_locks_high _ _ _ hl
  · intro hl
    rw [h4 hop hc hl]
    refine ⟨rfl, ?_⟩
    rw [log_alert_operational_ne_high]
    · exact hop
    · exact hl

/-- A station on HIGH security whose single user has already performed
50 gated operations. -/
def stHighDemo : Station :=
  { mkStation "P1" "Минск" [ParcelSize.SMALL, ParcelSize.LARGE]
      SecurityLevel.HIGH with
    user_operations := [("u", 50)] }

/-- A station on MEDIUM security whose single user has already
performed 50 gated operations. -/
def stMediumDemo : Station :=
  { mkStation "P1" "Минск" [ParcelSize.SMALL, ParcelSize.LARGE]
      SecurityLevel.MEDIUM with
    user_operations := [("u", 50)] }

/-- Witness for C3: on the HIGH station the 51st operation is denied
and the station locks; on the MEDIUM station it is allowed and the
station stays operational, while the alert is logged in both cases. -/
theorem security_gate_threshold_witness :
    (check_security stHighDemo "u" 9).2.1 = false
  ∧ (check_security stHighDemo "u" 9).1.is_operational = false
  ∧ (check_security stMediumDemo "u" 9).2.1 = true
  ∧ (check_security stMediumDemo "u" 9).1.is_operational = true
  ∧ (check_security stMediumDemo "u" 9).1.security_alerts.length = 1 := by
  have hH := security_gate_threshold stHighDemo "u" 9 rfl (by decide)
  have hM := security_gate_threshold stMediumDemo "u" 9 rfl (by decide)
  have h1 := hH.2.1 rfl
  have h2 := hM.2.2 (by decide)
  refine ⟨h1.1, h1.2, h2.1, h2.2, ?_⟩
  rw [hM.1]
  rfl

/-! C2: first-fit locker binding in `send_parcel`. -/

/-- C2: when the gate passes and the parcel is not a duplicate,
`send_parcel` binds the parcel to exactly the first locker in bank
order that is unoccupied, functional and of size at least the parcel's
size; with no such locker it fails with the capacity message and binds
nothing. -/
theorem send_parcel_first_fit (st : Station) (p : Parcel) (user : String)
    (now : Nat)
    (hgate : (check_security st user now).2.1 = true)
    (hdup : alookup st.parcels p.tracking_number = none) :
    (find_available_locker st.lockers p.size = none →
        (send_parcel st p user now).2 =
            (false, "Нет свободных ячеек подходящего размера")
      ∧ (send_parcel st p user now).1.parcels = st.parcels
      ∧ (send_parcel st p user now).1.lockers = st.lockers)
  ∧ (∀ l, find_available_locker st.lockers p.size = some l →
        (l.is_occupied = false ∧ l.is_functional = true ∧
            size_order p.size ≤ size_order l.size)
      ∧ (∃ pre post, st.lockers = pre ++ l :: post ∧
            (∀ x ∈ pre, lockerOk p.size x = false) ∧
            (send_parcel st p user now).1.lockers =
              pre ++ { l with is_occupied := true, current_parcel := some p.tracking_number } :: post)
      ∧ (send_parcel st p user now).2.1 = true
      ∧ alookup (send_parcel st p user now).1.parcels p.tracking_number =
          some (place_in_locker p l.number now)) := by
  have hpass := check_security_pass st user now hgate
  have hpar := check_security_parcels st user now
  have hlock := check_security_lockers st user now
  constructor
  · intro hfind
    unfold send_parcel
    dsimp only
    rw [if_neg (by rw [hgate]; simp)]
    rw [if_neg (by rw [hpass.2]; simp)]
    rw [if_neg (by rw [hpar, hdup]; simp)]
    rw [hlock, hfind]
    exact ⟨rfl, hpar, hlock⟩
  · intro l hfind
    have hsplit := find_available_some_split hfind
      (fun _ => { l with is_occupied := true, current_parcel := some p.tracking_number })
    rcases hsplit with ⟨pre, post, heq, hpre, hok, hupd⟩
    have hput := put_parcel_ok (l := l) (p := p) now hok
    constructor
    · exact lockerOk_spec hok
    · unfold send_parcel
      dsimp only
      rw [if_neg (by rw [hgate]; simp)]
      rw [if_neg (by rw [hpass.2]; simp)]
      rw [if_neg (by rw [hpar, hdup]; simp)]
      rw [hlock, hfind]
      dsimp only
      rw [hput]
      dsimp only
      refine ⟨⟨pre, post, heq, hpre, ?_⟩, rfl, ?_⟩
      · exact hupd
      · rw [hpar]
        exact alookup_aset_self _ _ _

/-- Sender/recipient pair for the demo scenarios. -/
def senderDemo : Person :=
  { name := "Иван", phone := "+375291234567", email := "a@b.by", id := "sid1" }

/-- Registered recipient of the demo parcel. -/
def recipientDemo : Person :=
  { name := "Петр", phone := "+375441234567", email := "c@d.by", id := "rid1" }

/-- A different person (different derived identifier). -/
def intruderDemo : Person :=
  { name := "Олег", phone := "+375251234567", email := "e@f.by", id := "rid2" }

/-- A freshly constructed small demo parcel. -/
def parcelDemo : Parcel :=
  { tracking_number := "ABC0123456789"
    sender := senderDemo
    recipient := recipientDemo
    size := ParcelSize.SMALL
    description := ""
    status := ParcelStatus.CREATED
    placed_at := none
    delivered_at := none
    locker_number := none
    storage_days := 3
    storage_until := none }

/-- A fresh two-locker demo station (a possible outcome of the
shuffled 50/30/20 size distribution for `total_lockers = 2`). -/
def stationDemo : Station :=
  mkStation "P1" "Минск" [ParcelSize.SMALL, ParcelSize.LARGE]
    SecurityLevel.MEDIUM

/-- Witness for C2: on the fresh demo station, sending the small demo
parcel succeeds and binds it to locker 1 (the first fit). -/
theorem send_parcel_first_fit_witness :
    (send_parcel stationDemo parcelDemo "u" 0).2.1 = true
  ∧ alookup (send_parcel stationDemo parcelDemo "u" 0).1.parcels
        "ABC0123456789" =
      some (place_in_locker parcelDemo 1 0) := by
  have h := (send_parcel_first_fit stationDemo parcelDemo "u" 0
      (by decide) (by decide)).2
      { number := 1
        size := ParcelSize.SMALL
        is_occupied := false
        is_functional := true
        current_parcel := none
        last_maintenance := none } rfl
  exact ⟨h.2.2.1, h.2.2.2⟩

/-! C7: any failing `send_parcel` leaves the active-parcel index (and
the locker bank) unchanged; locker faults surface as `(False, message)`
results, never as exceptions (the embedding of `send_parcel` is a total
function into a result tuple). -/

/-- C7: whenever `send_parcel` returns a failure outcome, the
active-parcel index and the locker bank are unchanged — registration
happens only after the locker binding succeeded. -/
theorem send_failure_preserves_state (st : Station) (p : Parcel)
    (user : String) (now : Nat)
    (h : (send_parcel st p user now).2.1 = false) :
    (send_parcel st p user now).1.parcels = st.parcels ∧
      (send_parcel st p user now).1.lockers = st.lockers := by
  rcases send_parcel_cases st p user now with
    ⟨_, h2, h3⟩ | ⟨_, _, l, pre, post, _, _, _, _, hflag, _, _⟩
  · exact ⟨h2, h3⟩
  · rw [hflag] at h
    simp at h

/-- The demo station after the demo parcel was sent into it. -/
def stationDemoAfterSend : Station :=
  (send_parcel stationDemo parcelDemo "u" 0).1

/-- Witness for C7: re-sending the already-stored demo parcel fails
(duplicate) and leaves the index unchanged. -/
theorem send_failure_preserves_state_witness :
    (send_parcel stationDemoAfterSend parcelDemo "u" 1).2.1 = false
  ∧ (send_parcel stationDemoAfterSend parcelDemo "u" 1).1.parcels =
      stationDemoAfterSend.parcels := by
  have h : (send_parcel stationDemoAfterSend parcelDemo "u" 1).2.1 = false := by
    decide
  exact ⟨h,
    (send_failure_preserves_state stationDemoAfterSend parcelDemo "u" 1 h).1⟩

/-! C4: unauthorized receive. -/

/-- C4 (amended): a `receive_parcel` call by a claimant whose derived
identifier differs from the parcel's recorded recipient identifier
fails with the authorization message, appends exactly one
`unauthorized_access` alert, and leaves the parcel index and the
lockers unchanged (so the parcel keeps whatever lifecycle state it
had). -/
theorem receive_unauthorized (st : Station) (tracking : String)
    (recipient : Person) (user : String) (now : Nat) (parcel : Parcel)
    (hgate : (check_security st user now).2.1 = true)
    (hfound : alookup st.parcels tracking = some parcel)
    (hauth : parcel.recipient.id ≠ recipient.id) :
    (receive_parcel st tracking recipient user now).2 =
        (false, "У вас нет прав на получение этой посылки", none)
  ∧ (receive_parcel st tracking recipient user now).1.security_alerts =
      (check_security st user now).1.security_alerts ++
        [{ timestamp := now
           alert_type := "unauthorized_access"
           description := "Попытка получения " ++ tracking ++ " неполучателем" }]
  ∧ (receive_parcel st tracking recipient user now).1.parcels = st.parcels
  ∧ (receive_parcel st tracking recipient user now).1.lockers = st.lockers := by
  have hpar := check_security_parcels st user now
  have hlock := check_security_lockers st user now
  unfold receive_parcel
  dsimp only
  rw [if_neg (by rw [hgate]; simp)]
  rw [if_neg (by rw [(check_security_pass st user now hgate).2]; simp)]
  rw [hpar, hfound]
  dsimp only
  rw [if_pos hauth]
  refine ⟨rfl, ?_, ?_, ?_⟩
  · exact log_alert_alerts _ _ _ _
  · rw [log_alert_parcels]
    exact hpar
  · rw [log_alert_lockers]
    exact hlock

/-- Witness for C4 (amended): on the demo station holding the demo
parcel, the intruder's receive attempt fails, logs exactly one
`unauthorized_access` alert, and leaves index and lockers unchanged. -/
theorem receive_unauthorized_witness :
    (receive_parcel stationDemoAfterSend "ABC0123456789" intruderDemo "u" 1).2 =
        (false, "У вас нет прав на получение этой посылки", none)
  ∧ (receive_parcel stationDemoAfterSend "ABC0123456789" intruderDemo
        "u" 1).1.security_alerts.length = 1
  ∧ (receive_parcel stationDemoAfterSend "ABC0123456789" intruderDemo
        "u" 1).1.parcels = stationDemoAfterSend.parcels := by
  have h := receive_unauthorized stationDemoAfterSend "ABC0123456789"
    intruderDemo "u" 1 (place_in_locker parcelDemo 1 0)
    (by decide) (by decide) (by decide)
  refine ⟨h.1, ?_, h.2.2.1⟩
  rw [h.2.1]
  rfl

/-- The demo station after its parcel expired in place (sweep at time
10, deadline 3): the parcel is still indexed, still in locker 1, and
now EXPIRED. -/
def stationExpiredDemo : Station :=
  (check_expired_parcels stationDemoAfterSend 10).1

/-- Counterexample to C4 as frozen: the claim asserts that after an
unauthorized receive the indexed parcel is left *in state IN_STATION*,
but for a (reachable) station whose indexed parcel has already expired
in place, the unauthorized receive fails and appends its single alert
while the parcel's state is EXPIRED, not IN_STATION. -/
theorem receive_unauthorized_counterexample :
    Reachable stationExpiredDemo
  ∧ (receive_parcel stationExpiredDemo "ABC0123456789" intruderDemo
        "u" 1).2.1 = false
  ∧ (receive_parcel stationExpiredDemo "ABC0123456789" intruderDemo
        "u" 1).1.security_alerts.length = 1
  ∧ ∃ q, alookup (receive_parcel stationExpiredDemo "ABC0123456789"
        intruderDemo "u" 1).1.parcels "ABC0123456789" = some q
      ∧ q.status ≠ ParcelStatus.IN_POSTOMAT := by
  refine ⟨?_, by decide, by decide, ?_⟩
  · exact Reachable.step
      (Reachable.step
        (Reachable.init "P1" "Минск" [ParcelSize.SMALL, ParcelSize.LARGE]
          SecurityLevel.MEDIUM)
        (Step.send _ parcelDemo "u" 0))
      (Step.sweep _ 10)
  · refine ⟨{ place_in_locker parcelDemo 1 0 with
        status := ParcelStatus.EXPIRED }, by decide, by decide⟩

/-! C8: maintenance accounting. -/

theorem maintLoop_cons_functional (rolls : Nat → Bool) (now : Nat)
    (l : Locker) (rest : List Locker) (k : Nat)
    (hf : l.is_functional = true) :
    maintLoop rolls now (l :: rest) k =
      ({ l with last_maintenance := some now } :: (maintLoop rolls now rest k).1,
       (maintLoop rolls now rest k).2.1,
       (maintLoop rolls now rest k).2.2.1,
       (maintLoop rolls now rest k).2.2.2.1,
       (maintLoop rolls now rest k).2.2.2.2) := by
  simp only [maintLoop]
  rw [if_neg (by simp [hf])]

theorem maintLoop_cons_repaired (rolls : Nat → Bool) (now : Nat)
    (l : Locker) (rest : List Locker) (k : Nat)
    (hf : l.is_functional = false) (hr : rolls k = true) :
    maintLoop rolls now (l :: rest) k =
      (repairLocker l now :: (maintLoop rolls now rest (k + 1)).1,
       (maintLoop rolls now rest (k + 1)).2.1 + 1,
       (maintLoop rolls now rest (k + 1)).2.2.1,
       ("Ячейка " ++ toString l.number ++ " отремонтирована") :: (maintLoop rolls now rest (k + 1)).2.2.2.1,
       (maintLoop rolls now rest (k + 1)).2.2.2.2) := by
  simp only [maintLoop]
  rw [if_pos (by simp [hf]), if_pos hr]

theorem maintLoop_cons_failed (rolls : Nat → Bool) (now : Nat)
    (l : Locker) (rest : List Locker) (k : Nat)
    (hf : l.is_functional = false) (hr : rolls k = false) :
    maintLoop rolls now (l :: rest) k =
      (l :: (maintLoop rolls now rest (k + 1)).1,
       (maintLoop rolls now rest (k + 1)).2.1,
       (maintLoop rolls now rest (k + 1)).2.2.1 + 1,
       ("Ячейка " ++ toString l.number ++ " требует замены") :: (maintLoop rolls now rest (k + 1)).2.2.2.1,
       (maintLoop rolls now rest (k + 1)).2.2.2.2) := by
  simp only [maintLoop]
  rw [if_pos (by simp [hf]), if_neg (by simp [hr])]

theorem maintLoop_counts (rolls : Nat → Bool) (now : Nat) :
    ∀ (ls : List Locker) (k : Nat),
      (maintLoop rolls now ls k).2.1 + (maintLoop rolls now ls k).2.2.1 =
        (ls.filter (fun l => !l.is_functional)).length := by
  intro ls
  induction ls with
  | nil => intro k; simp [maintLoop]
  | cons l rest ih =>
      intro k
      by_cases hf : l.is_functional = true
      · rw [maintLoop_cons_functional rolls now l rest k hf,
          List.filter_cons_of_neg (by simp [hf])]
        exact ih k
      · have hf2 := bool_eq_false_of_ne_true hf
        by_cases hr : rolls k = true
        · rw [maintLoop_cons_repaired rolls now l rest k hf2 hr,
            List.filter_cons_of_pos (by simp [hf2])]
          have := ih (k + 1)
          dsimp only
          rw [List.length_cons]
          omega
        · rw [maintLoop_cons_failed rolls now l rest k hf2
              (bool_eq_false_of_ne_true hr),
            List.filter_cons_of_pos (by simp [hf2])]
          have := ih (k + 1)
          dsimp only
          rw [List.length_cons]
          omega

theorem maintLoop_broken_after (rolls : Nat → Bool) (now : Nat) :
    ∀ (ls : List Locker) (k : Nat),
      ((maintLoop rolls now ls k).1.filter (fun l => !l.is_functional)).length =
        (maintLoop rolls now ls k).2.2.1 := by
  intro ls
  induction ls with
  | nil => intro k; simp [maintLoop]
  | cons l rest ih =>
      intro k
      by_cases hf : l.is_functional = true
      · rw [maintLoop_cons_functional rolls now l rest k hf]
        dsimp only
        rw [List.filter_cons_of_neg (by simp [hf])]
        exact ih k
      · have hf2 := bool_eq_false_of_ne_true hf
        by_cases hr : rolls k = true
        · rw [maintLoop_cons_repaired rolls now l rest k hf2 hr]
          dsimp only
          rw [List.filter_cons_of_neg (by simp [repairLocker])]
          exact ih (k + 1)
        · rw [maintLoop_cons_failed rolls now l rest k hf2
              (bool_eq_false_of_ne_true hr)]
          dsimp only
          rw [List.filter_cons_of_pos (by simp [hf2])]
          rw [List.length_cons, ih (k + 1)]

theorem maintLoop_functional_pointwise (rolls : Nat → Bool) (now : Nat) :
    ∀ (ls : List Locker) (k i : Nat) (l : Locker),
      ls.get? i = some l → l.is_functional = true →
      (maintLoop rolls now ls k).1.get? i =
        some { l with last_maintenance := some now } := by
  intro ls
  induction ls with
  | nil => intro k i l h; simp at h
  | cons x rest ih =>
      intro k i l h hf
      by_cases hx : x.is_functional = true
      · rw [maintLoop_cons_functional rolls now x rest k hx]
        cases i with
        | zero =>
            simp only [List.get?] at h
            rw [Option.some_injective _ h]
            rfl
        | succ j =>
            simp only [List.get?] at h ⊢
            exact ih k j l h hf
      · have hx2 := bool_eq_false_of_ne_true hx
        cases i with
        | zero =>
            simp only [List.get?] at h
            rw [Option.some_injective _ h] at hx2
            rw [hf] at hx2
            exact absurd hx2 (by simp)
        | succ j =>
            by_cases hr : rolls k = true
            · rw [maintLoop_cons_repaired rolls now x rest k hx2 hr]
              simp only [List.get?] at h ⊢
              exact ih (k + 1) j l h hf
            · rw [maintLoop_cons_failed rolls now x rest k hx2
                  (bool_eq_false_of_ne_true hr)]
              simp only [List.get?] at h ⊢
              exact ih (k + 1) j l h hf

theorem maintLoop_no_repairs (rolls : Nat → Bool) (now : Nat)
    (hr : ∀ k, rolls k = false) :
    ∀ (ls : List Locker) (k : Nat), (maintLoop rolls now ls k).2.1 = 0 := by
  intro ls
  induction ls with
  | nil => intro k; simp [maintLoop]
  | cons l rest ih =>
      intro k
      by_cases hf : l.is_functional = true
      · rw [maintLoop_cons_functional rolls now l rest k hf]
        exact ih k
      · rw [maintLoop_cons_failed rolls now l rest k
            (bool_eq_false_of_ne_true hf) (hr k)]
        exact ih (k + 1)

/-- C8: `perform_maintenance` rejects an empty technician name, and
otherwise returns a report with `lockers_checked` equal to the bank
size, `lockers_repaired + failed_repairs = broken_before`,
`broken_after = failed_repairs`, already-functional lockers receiving
only a maintenance timestamp, and — with the repair probability forced
to 0 — no repairs, `failed_repairs = broken_before` and
`broken_after = broken_before`. -/
theorem perform_maintenance_report (st : Station) (technician : String)
    (rolls : Nat → Bool) (now : Nat) :
    (technician = "" →
        perform_maintenance st technician rolls now =
          Except.error "Имя техника обязательно")
  ∧ (technician ≠ "" →
      ∃ st2 r, perform_maintenance st technician rolls now =
          Except.ok (st2, r)
        ∧ r.lockers_checked = st.lockers.length
        ∧ r.broken_before =
            (st.lockers.filter (fun l => !l.is_functional)).length
        ∧ r.lockers_repaired + r.failed_repairs = r.broken_before
        ∧ r.broken_after = r.failed_repairs
        ∧ (∀ i l, st.lockers.get? i = some l → l.is_functional = true →
             st2.lockers.get? i =
               some { l with last_maintenance := some now })
        ∧ ((∀ k, rolls k = false) →
             r.lockers_repaired = 0 ∧ r.failed_repairs = r.broken_before ∧
               r.broken_after = r.broken_before)) := by
  constructor
  · intro h
    unfold perform_maintenance
    rw [if_pos h]
  · intro h
    unfold perform_maintenance
    rw [if_neg h]
    dsimp only
    refine ⟨_, _, rfl, rfl, rfl, ?_, ?_, ?_, ?_⟩
    · exact maintLoop_counts rolls now st.lockers 0
    · show ((maintLoop rolls now st.lockers 0).1.filter
          (fun l => !l.is_functional)).length =
        (maintLoop rolls now st.lockers 0).2.2.1
      exact maintLoop_broken_after rolls now st.lockers 0
    · intro i l hi hf
      exact maintLoop_functional_pointwise rolls now st.lockers 0 i l hi hf
    · intro hr
      have h0 := maintLoop_no_repairs rolls now hr st.lockers 0
      have hc := maintLoop_counts rolls now st.lockers 0
      have hb := maintLoop_broken_after rolls now st.lockers 0
      refine ⟨h0, ?_, ?_⟩
      · show (maintLoop rolls now st.lockers 0).2.2.1 =
          (st.lockers.filter (fun l => !l.is_functional)).length
        omega
      · show ((maintLoop rolls now st.lockers 0).1.filter
            (fun l => !l.is_functional)).length =
          (st.lockers.filter (fun l => !l.is_functional)).length
        omega

/-- The demo station with its first locker broken by
`break_random_locker`. -/
def stationBrokenDemo : Station :=
  (break_random_locker stationDemo 0 0).1

/-- Witness for C8: maintenance with repair probability forced to 0 on
a station with one broken locker reports one failed repair, no
repairs, and one broken locker before and after. -/
theorem perform_maintenance_report_witness :
    ∃ st2 r, perform_maintenance stationBrokenDemo "Техник"
        (fun _ => false) 5 = Except.ok (st2, r)
      ∧ r.broken_before = 1 ∧ r.lockers_repaired = 0
      ∧ r.failed_repairs = 1 ∧ r.broken_after = 1 := by
  rcases (perform_maintenance_report stationBrokenDemo "Техник"
      (fun _ => false) 5).2 (by decide) with
    ⟨st2, r, heq, h1, h2, h3, h4, h5, h6⟩
  rcases h6 (fun k => rfl) with ⟨z1, z2, z3⟩
  have hb : r.broken_before = 1 := by rw [h2]; rfl
  exact ⟨st2, r, heq, hb, z1, by rw [z2, hb], by rw [z3, hb]⟩
/-! C9: tracking-code generation. -/

theorem trackingCandidate_format (pick digit : Nat → Nat) (k : Nat) :
    isTrackingFormat (trackingCandidate pick digit k) := by
  refine ⟨TRACKING_PREFIXES.getD (pick k % TRACKING_PREFIXES.length) "ABC",
    ?_, tenDigits digit (10 * k), ?_, ?_, rfl⟩
  · have hlen : TRACKING_PREFIXES.length = 8 := rfl
    have hi : pick k % TRACKING_PREFIXES.length < 8 := by
      rw [hlen]
      exact Nat.mod_lt _ (by omega)
    have hall : ∀ i, i < 8 → TRACKING_PREFIXES.getD i "ABC" ∈ TRACKING_PREFIXES := by
      decide
    exact hall _ hi
  · simp [tenDigits]
  · intro c hc
    simp only [tenDigits, List.mem_map] at hc
    rcases hc with ⟨j, _, hj⟩
    have hall : ∀ r, r < 10 → (Char.ofNat (48 + r)).isDigit = true := by decide
    rw [← hj]
    unfold digitChar
    exact hall _ (Nat.mod_lt _ (by omega))

theorem genTrackingAux_spec (pick digit : Nat → Nat)
    (existing : List String) :
    ∀ (fuel k : Nat) (t : String) (ex2 : List String) (k2 : Nat),
      genTrackingAux pick digit existing fuel k = some (t, ex2, k2) →
      t ∉ existing ∧ ex2 = t :: existing ∧
        ∃ j, t = trackingCandidate pick digit j := by
  intro fuel
  induction fuel with
  | zero => intro k t ex2 k2 h; simp [genTrackingAux] at h
  | succ fuel ih =>
      intro k t ex2 k2 h
      unfold genTrackingAux at h
      by_cases hmem : trackingCandidate pick digit k ∈ existing
      · rw [if_pos hmem] at h
        exact ih (k + 1) t ex2 k2 h
      · rw [if_neg hmem] at h
        simp only [Option.some_inj] at h
        have h1 : t = trackingCandidate pick digit k :=
          congrArg (fun x => x.1) h.symm
        have h2 : ex2 = trackingCandidate pick digit k :: existing :=
          congrArg (fun x => x.2.1) h.symm
        subst h1
        exact ⟨hmem, h2, k, rfl⟩

theorem genTrackingN_spec (pick digit : Nat → Nat) (fuel : Nat) :
    ∀ (n k : Nat) (existing codes ex3 : List String) (k3 : Nat),
      genTrackingN pick digit fuel n k existing = some (codes, ex3, k3) →
      codes.length = n ∧ codes.Nodup ∧
        (∀ t ∈ codes, isTrackingFormat t ∧ t ∈ ex3 ∧ t ∉ existing) ∧
        (∀ t ∈ existing, t ∈ ex3) := by
  intro n
  induction n with
  | zero =>
      intro k existing codes ex3 k3 h
      unfold genTrackingN at h
      simp only [Option.some_inj] at h
      have hc : codes = [] := congrArg (fun x => x.1) h.symm
      have he : ex3 = existing := congrArg (fun x => x.2.1) h.symm
      subst hc
      subst he
      refine ⟨rfl, List.nodup_nil, ?_, fun t ht => ht⟩
      intro t ht
      simp at ht
  | succ n ih =>
      intro k existing codes ex3 k3 h
      unfold genTrackingN at h
      cases haux : genTrackingAux pick digit existing fuel k with
      | none => rw [haux] at h; simp at h
      | some r =>
          rcases r with ⟨t, ex2, k2⟩
          rw [haux] at h
          dsimp only at h
          cases hrec : genTrackingN pick digit fuel n k2 ex2 with
          | none => rw [hrec] at h; simp at h
          | some r2 =>
              rcases r2 with ⟨ts, ex4, k4⟩
              rw [hrec] at h
              dsimp only at h
              simp only [Option.some_inj] at h
              have hcodes : codes = t :: ts := congrArg (fun x => x.1) h.symm
              have hex : ex3 = ex4 := congrArg (fun x => x.2.1) h.symm
              rcases genTrackingAux_spec pick digit existing fuel k t ex2 k2
                haux with ⟨hnotmem, hex2, j, hcand⟩
              rcases ih k2 ex2 ts ex4 k4 hrec with ⟨hlen, hnodup, hts, hsub⟩
              subst hcodes
              subst hex
              refine ⟨?_, ?_, ?_, ?_⟩
              · simp [hlen]
              · rw [List.nodup_cons]
                refine ⟨?_, hnodup⟩
                intro hmem
                have := (hts t hmem).2.2
                rw [hex2] at this
                exact this (List.mem_cons_self _ _)
              · intro x hx
                rcases List.mem_cons.mp hx with h1 | h1
                · subst h1
                  refine ⟨?_, ?_, hnotmem⟩
                  · rw [hcand]
                    exact trackingCandidate_format pick digit j
                  · apply hsub
                    rw [hex2]
                    exact List.mem_cons_self _ _
                · rcases hts x h1 with ⟨hf, hm, hnm⟩
                  refine ⟨hf, hm, ?_⟩
                  intro hmem
                  apply hnm
                  rw [hex2]
                  exact List.mem_cons_of_mem _ hmem
              · intro x hx
                apply hsub
                rw [hex2]
                exact List.mem_cons_of_mem _ hx

/-- C9: any sequence of `n` successful in-process tracking-code
generations yields `n` pairwise-distinct codes, each of the form
prefix-from-the-fixed-set plus ten decimal digits, and each recorded in
the final uniqueness set. -/
theorem tracking_generation_unique (pick digit : Nat → Nat)
    (fuel n k : Nat) (existing codes ex3 : List String) (k3 : Nat)
    (h : genTrackingN pick digit fuel n k existing = some (codes, ex3, k3)) :
    codes.length = n ∧ codes.Nodup ∧
      ∀ t ∈ codes, isTrackingFormat t ∧ t ∈ ex3 := by
  rcases genTrackingN_spec pick digit fuel n k existing codes ex3 k3 h with
    ⟨h1, h2, h3, _⟩
  exact ⟨h1, h2, fun t ht => ⟨(h3 t ht).1, (h3 t ht).2.1⟩⟩

/-- Witness for C9: three generations with identity random streams
produce three distinct well-formed codes. -/
theorem tracking_generation_unique_witness :
    ["ABC0123456789", "XYZ0123456789", "TRK0123456789"].Nodup
  ∧ ∀ t ∈ ["ABC0123456789", "XYZ0123456789", "TRK0123456789"],
      isTrackingFormat t := by
  have h := tracking_generation_unique (fun j => j) (fun j => j) 5 3 0 []
    ["ABC0123456789", "XYZ0123456789", "TRK0123456789"]
    ["TRK0123456789", "XYZ0123456789", "ABC0123456789"] 3 (by decide)
  exact ⟨h.2.1, fun t ht => (h.2.2 t ht).1⟩

/-! Station invariants for the reachable-state claims. -/

/-- Every occupied locker is functional. -/
def occupiedFunctional (st : Station) : Prop :=
  ∀ l ∈ st.lockers, l.is_occupied = true → l.is_functional = true

/-- The occupancy flag mirrors the presence of the resident
reference. -/
def occupiedIffRef (st : Station) : Prop :=
  ∀ l ∈ st.lockers, l.is_occupied = l.current_parcel.isSome

/-- A locker's resident reference points to an indexed parcel whose
recorded locker number is this locker's number and whose state is
IN_POSTOMAT or EXPIRED. -/
def refConsistent (st : Station) : Prop :=
  ∀ l ∈ st.lockers, ∀ t, l.current_parcel = some t →
    ∃ q, alookup st.parcels t = some q ∧ q.locker_number = some l.number ∧
      (q.status = ParcelStatus.IN_POSTOMAT ∨ q.status = ParcelStatus.EXPIRED)

/-- Locker numbers are pairwise distinct. -/
def numbersNodup (st : Station) : Prop :=
  (st.lockers.map Locker.number).Nodup

/-- Every indexed tracking code is held by some locker. -/
def indexedHeld (st : Station) : Prop :=
  ∀ kv ∈ st.parcels, ∃ l ∈ st.lockers, l.current_parcel = some kv.1

/-- The conjunction of the station invariants preserved by every public
operation. -/
def Inv (st : Station) : Prop :=
  occupiedFunctional st ∧ occupiedIffRef st ∧ refConsistent st ∧
    numbersNodup st ∧ indexedHeld st

theorem inv_of_eq {st st2 : Station} (h : Inv st)
    (hp : st2.parcels = st.parcels) (hl : st2.lockers = st.lockers) :
    Inv st2 := by
  rcases h with ⟨h1, h2, h3, h4, h5⟩
  refine ⟨?_, ?_, ?_, ?_, ?_⟩
  · intro l hl2
    rw [hl] at hl2
    exact h1 l hl2
  · intro l hl2
    rw [hl] at hl2
    exact h2 l hl2
  · intro l hl2 t ht
    rw [hl] at hl2
    rw [hp]
    exact h3 l hl2 t ht
  · unfold numbersNodup
    rw [hl]
    exact h4
  · intro kv hkv
    rw [hp] at hkv
    rw [hl]
    exact h5 kv hkv

theorem mkLockersFrom_mem : ∀ (sizes : List ParcelSize) (n : Nat)
    (l : Locker), l ∈ mkLockersFrom n sizes →
    l.is_occupied = false ∧ l.current_parcel = none ∧ n ≤ l.number := by
  intro sizes
  induction sizes with
  | nil => intro n l h; simp [mkLockersFrom] at h
  | cons s rest ih =>
      intro n l h
      rcases List.mem_cons.mp h with h1 | h1
      · rw [h1]
        exact ⟨rfl, rfl, Nat.le_refl n⟩
      · rcases ih (n + 1) l h1 with ⟨a, b, c⟩
        exact ⟨a, b, by omega⟩

theorem mkLockersFrom_nodup : ∀ (sizes : List ParcelSize) (n : Nat),
    ((mkLockersFrom n sizes).map Locker.number).Nodup := by
  intro sizes
  induction sizes with
  | nil => intro n; simp [mkLockersFrom]
  | cons s rest ih =>
      intro n
      simp only [mkLockersFrom, List.map_cons]
      rw [List.nodup_cons]
      refine ⟨?_, ih (n + 1)⟩
      intro hmem
      rcases List.mem_map.mp hmem with ⟨l, hl, hnum⟩
      have h1 := (mkLockersFrom_mem rest (n + 1) l hl).2.2
      have h2 : l.number = n := hnum
      omega

theorem inv_mkStation (sid addr : String) (sizes : List ParcelSize)
    (level : SecurityLevel) : Inv (mkStation sid addr sizes level) := by
  refine ⟨?_, ?_, ?_, ?_, ?_⟩
  · intro l hl hocc
    have := (mkLockersFrom_mem sizes 1 l hl).1
    rw [this] at hocc
    exact absurd hocc (by simp)
  · intro l hl
    rcases mkLockersFrom_mem sizes 1 l hl with ⟨a, b, _⟩
    rw [a, b]
    rfl
  · intro l hl t ht
    rw [(mkLockersFrom_mem sizes 1 l hl).2.1] at ht
    exact absurd ht (by simp)
  · exact mkLockersFrom_nodup sizes 1
  · intro kv hkv
    simp [mkStation] at hkv

/-- The locker fields relevant to the reference invariants. -/
def lockerKey (l : Locker) : Nat × Bool × Option String :=
  (l.number, l.is_occupied, l.current_parcel)

/-- Transfer of the reference invariants along an operation that keeps
the parcel index and the number/occupancy/reference fields of the bank
(maintenance and break only toggle `is_functional` and stamps). -/
theorem inv_transfer {st st2 : Station}
    (hp : st2.parcels = st.parcels)
    (hk : st2.lockers.map lockerKey = st.lockers.map lockerKey)
    (h : Inv st) (hfun : occupiedFunctional st2) : Inv st2 := by
  rcases h with ⟨_, h2, h3, h4, h5⟩
  refine ⟨hfun, ?_, ?_, ?_, ?_⟩
  · intro l2 hl2
    have hmem : lockerKey l2 ∈ st.lockers.map lockerKey := by
      rw [← hk]
      exact List.mem_map_of_mem _ hl2
    rcases List.mem_map.mp hmem with ⟨l, hl, hkey⟩
    have hocc : l.is_occupied = l2.is_occupied :=
      congrArg (fun x => x.2.1) hkey
    have href : l.current_parcel = l2.current_parcel :=
      congrArg (fun x => x.2.2) hkey
    rw [← hocc, ← href]
    exact h2 l hl
  · intro l2 hl2 t ht
    have hmem : lockerKey l2 ∈ st.lockers.map lockerKey := by
      rw [← hk]
      exact List.mem_map_of_mem _ hl2
    rcases List.mem_map.mp hmem with ⟨l, hl, hkey⟩
    have hnum : l.number = l2.number := congrArg (fun x => x.1) hkey
    have href : l.current_parcel = l2.current_parcel :=
      congrArg (fun x => x.2.2) hkey
    rcases h3 l hl t (by rw [href, ht]) with ⟨q, hq1, hq2, hq3⟩
    refine ⟨q, ?_, ?_, hq3⟩
    · rw [hp]
      exact hq1
    · rw [hq2, hnum]
  · unfold numbersNodup
    have e1 : st2.lockers.map Locker.number =
        (st2.lockers.map lockerKey).map (fun x => x.1) := by
      rw [List.map_map]
      rfl
    have e2 : st.lockers.map Locker.number =
        (st.lockers.map lockerKey).map (fun x => x.1) := by
      rw [List.map_map]
      rfl
    rw [e1, hk, ← e2]
    exact h4
  · intro kv hkv
    rw [hp] at hkv
    rcases h5 kv hkv with ⟨l, hl, href⟩
    have hmem : lockerKey l ∈ st2.lockers.map lockerKey := by
      rw [hk]
      exact List.mem_map_of_mem _ hl
    rcases List.mem_map.mp hmem with ⟨l2, hl2, hkey⟩
    refine ⟨l2, hl2, ?_⟩
    have hrr : l2.current_parcel = l.current_parcel :=
      congrArg (fun x => x.2.2) hkey
    rw [hrr, href]

/-- `notify_recipient` never touches the parcel index or the bank. -/
theorem notify_recipient_preserves (st : Station) (t m u : String)
    (now : Nat) :
    (notify_recipient st t m u now).1.parcels = st.parcels ∧
      (notify_recipient st t m u now).1.lockers = st.lockers := by
  have hpar := check_security_parcels st u now
  have hlock := check_security_lockers st u now
  unfold notify_recipient
  dsimp only
  split
  · exact ⟨hpar, hlock⟩
  · split
    · exact ⟨hpar, hlock⟩
    · split
      · exact ⟨hpar, hlock⟩
      · exact ⟨hpar, hlock⟩

/-! The expiry sweep preserves the invariants. -/

theorem sweepExpired_alookup (now : Nat) :
    ∀ (ps : List (String × Parcel)) (t : String),
      alookup (sweepExpired now ps).1 t =
        (alookup ps t).map (fun q =>
          if is_expired q now && q.status = ParcelStatus.IN_POSTOMAT then
            { q with status := ParcelStatus.EXPIRED } else q) := by
  intro ps
  induction ps with
  | nil => intro t; simp [sweepExpired, alookup]
  | cons kv rest ih =>
      rcases kv with ⟨t0, q0⟩
      intro t
      unfold sweepExpired
      dsimp only
      by_cases hc :
          (is_expired q0 now && decide (q0.status = ParcelStatus.IN_POSTOMAT)) = true
      · rw [if_pos hc]
        by_cases ht : t0 = t
        · simp only [Bool.and_eq_true, decide_eq_true_eq] at hc
          simp [alookup, ht, hc.1, hc.2]
        · simp [alookup, ht, ih]
      · rw [if_neg hc]
        by_cases ht : t0 = t
        · simp only [Bool.and_eq_true, decide_eq_true_eq] at hc
          simp [alookup, ht, hc]
        · simp [alookup, ht, ih]

theorem sweepExpired_fst (now : Nat) :
    ∀ ps, (sweepExpired now ps).1.map Prod.fst = ps.map Prod.fst := by
  intro ps
  induction ps with
  | nil => rfl
  | cons kv rest ih =>
      rcases kv with ⟨t0, q0⟩
      unfold sweepExpired
      dsimp only
      by_cases hc :
          (is_expired q0 now && decide (q0.status = ParcelStatus.IN_POSTOMAT)) = true
      · rw [if_pos hc]
        simp [ih]
      · rw [if_neg hc]
        simp [ih]

theorem sweep_preserves_inv (st : Station) (now : Nat) (h : Inv st) :
    Inv (check_expired_parcels st now).1 := by
  rcases h with ⟨h1, h2, h3, h4, h5⟩
  have hlock : (check_expired_parcels st now).1.lockers = st.lockers := rfl
  have hpar : (check_expired_parcels st now).1.parcels =
      (sweepExpired now st.parcels).1 := rfl
  refine ⟨?_, ?_, ?_, ?_, ?_⟩
  · intro l hl
    rw [hlock] at hl
    exact h1 l hl
  · intro l hl
    rw [hlock] at hl
    exact h2 l hl
  · intro l hl t ht
    rw [hlock] at hl
    rcases h3 l hl t ht with ⟨q, hq1, hq2, hq3⟩
    rw [hpar, sweepExpired_alookup now st.parcels t, hq1]
    by_cases hc :
        (is_expired q now && decide (q.status = ParcelStatus.IN_POSTOMAT)) = true
    · refine ⟨{ q with status := ParcelStatus.EXPIRED }, ?_, hq2, Or.inr rfl⟩
      simp only [Bool.and_eq_true, decide_eq_true_eq] at hc
      simp [hc.1, hc.2]
    · refine ⟨q, ?_, hq2, hq3⟩
      simp only [Bool.and_eq_true, decide_eq_true_eq] at hc
      simp [hc]
  · unfold numbersNodup
    rw [hlock]
    exact h4
  · intro kv hkv
    rw [hpar] at hkv
    have hmem : kv.1 ∈ (sweepExpired now st.parcels).1.map Prod.fst :=
      List.mem_map_of_mem _ hkv
    rw [sweepExpired_fst] at hmem
    rcases List.mem_map.mp hmem with ⟨kv0, hkv0, hfst⟩
    rcases h5 kv0 hkv0 with ⟨l, hl, href⟩
    refine ⟨l, ?_, ?_⟩
    · rw [hlock]
      exact hl
    · rw [href, hfst]

/-! Maintenance and the break hook preserve the invariants. -/

theorem maintLoop_lockerKey (rolls : Nat → Bool) (now : Nat) :
    ∀ (ls : List Locker) (k : Nat),
      (maintLoop rolls now ls k).1.map lockerKey = ls.map lockerKey := by
  intro ls
  induction ls with
  | nil => intro k; rfl
  | cons l rest ih =>
      intro k
      by_cases hf : l.is_functional = true
      · rw [maintLoop_cons_functional rolls now l rest k hf]
        simp [lockerKey, ih k]
      · have hf2 := bool_eq_false_of_ne_true hf
        by_cases hr : rolls k = true
        · rw [maintLoop_cons_repaired rolls now l rest k hf2 hr]
          simp [lockerKey, repairLocker, ih (k + 1)]
        · rw [maintLoop_cons_failed rolls now l rest k hf2
              (bool_eq_false_of_ne_true hr)]
          simp [lockerKey, ih (k + 1)]

theorem maintLoop_broken_mem (rolls : Nat → Bool) (now : Nat) :
    ∀ (ls : List Locker) (k : Nat) (l2 : Locker),
      l2 ∈ (maintLoop rolls now ls k).1 → l2.is_functional = false →
      ∃ l ∈ ls, l.is_functional = false ∧ l.is_occupied = l2.is_occupied := by
  intro ls
  induction ls with
  | nil =>
      intro k l2 h
      rw [show (maintLoop rolls now [] k).1 = [] from rfl] at h
      simp at h
  | cons l rest ih =>
      intro k l2 h hb
      by_cases hf : l.is_functional = true
      · rw [maintLoop_cons_functional rolls now l rest k hf] at h
        dsimp only at h
        rcases List.mem_cons.mp h with h1 | h1
        · exfalso
          rw [h1] at hb
          have hb2 : l.is_functional = false := hb
          rw [hf] at hb2
          exact absurd hb2 (by simp)
        · rcases ih k l2 h1 hb with ⟨l0, hl0, hfacts⟩
          exact ⟨l0, List.mem_cons_of_mem _ hl0, hfacts⟩
      · have hf2 := bool_eq_false_of_ne_true hf
        by_cases hr : rolls k = true
        · rw [maintLoop_cons_repaired rolls now l rest k hf2 hr] at h
          dsimp only at h
          rcases List.mem_cons.mp h with h1 | h1
          · exfalso
            rw [h1] at hb
            have hb2 : (true : Bool) = false := hb
            exact absurd hb2 (by simp)
          · rcases ih (k + 1) l2 h1 hb with ⟨l0, hl0, hfacts⟩
            exact ⟨l0, List.mem_cons_of_mem _ hl0, hfacts⟩
        · rw [maintLoop_cons_failed rolls now l rest k hf2
              (bool_eq_false_of_ne_true hr)] at h
          dsimp only at h
          rcases List.mem_cons.mp h with h1 | h1
          · exact ⟨l, List.mem_cons_self _ _, hf2, by rw [h1]⟩
          · rcases ih (k + 1) l2 h1 hb with ⟨l0, hl0, hfacts⟩
            exact ⟨l0, List.mem_cons_of_mem _ hl0, hfacts⟩

theorem maintenance_preserves_inv (st : Station) (tech : String)
    (rolls : Nat → Bool) (now : Nat) (h : Inv st) :
    Inv (match perform_maintenance st tech rolls now with
         | Except.ok r => r.1
         | Except.error _ => st) := by
  by_cases htech : tech = ""
  · rw [show perform_maintenance st tech rolls now =
        Except.error "Имя техника обязательно" from by
      unfold perform_maintenance
      rw [if_pos htech]]
    exact h
  · have hspec : ∃ st2 r, perform_maintenance st tech rolls now =
        Except.ok (st2, r) ∧ st2.parcels = st.parcels ∧
        st2.lockers = (maintLoop rolls now st.lockers 0).1 := by
      unfold perform_maintenance
      rw [if_neg htech]
      dsimp only
      exact ⟨_, _, rfl, rfl, rfl⟩
    rcases hspec with ⟨st2, r, heq, hp, hl⟩
    rw [heq]
    dsimp only
    refine inv_transfer hp ?_ h ?_
    · rw [hl]
      exact maintLoop_lockerKey rolls now st.lockers 0
    · intro l2 hl2 hocc
      rw [hl] at hl2
      by_cases hb : l2.is_functional = true
      · exact hb
      · exfalso
        rcases maintLoop_broken_mem rolls now st.lockers 0 l2 hl2
          (bool_eq_false_of_ne_true hb) with ⟨l0, hl0, hbf, hbo⟩
        have hfun := h.1 l0 hl0 (by rw [hbo, hocc])
        rw [hfun] at hbf
        exact absurd hbf (by simp)

theorem setBrokenAt_lockerKey : ∀ (ls : List Locker) (i : Nat),
    (setBrokenAt ls i).map lockerKey = ls.map lockerKey := by
  intro ls
  induction ls with
  | nil => intro i; rfl
  | cons l rest ih =>
      intro i
      cases i with
      | zero => simp [setBrokenAt, lockerKey]
      | succ j => simp [setBrokenAt, lockerKey, ih j]

theorem setBrokenAt_mem : ∀ (ls : List Locker) (i : Nat) (l2 : Locker),
    l2 ∈ setBrokenAt ls i →
    l2 ∈ ls ∨ ∃ l, ls.get? i = some l ∧
      l2 = { l with is_functional := false } := by
  intro ls
  induction ls with
  | nil => intro i l2 h; simp [setBrokenAt] at h
  | cons l rest ih =>
      intro i l2 h
      cases i with
      | zero =>
          unfold setBrokenAt at h
          rcases List.mem_cons.mp h with h1 | h1
          · right
            exact ⟨l, rfl, h1⟩
          · left
            exact List.mem_cons_of_mem _ h1
      | succ j =>
          unfold setBrokenAt at h
          rcases List.mem_cons.mp h with h1 | h1
          · left
            rw [h1]
            exact List.mem_cons_self _ _
          · rcases ih j l2 h1 with h2 | ⟨l0, hget, hl2⟩
            · left
              exact List.mem_cons_of_mem _ h2
            · right
              exact ⟨l0, hget, hl2⟩

theorem getD_mem_of_lt {α : Type} : ∀ (xs : List α) (i : Nat) (d : α),
    i < xs.length → xs.getD i d ∈ xs := by
  intro xs
  induction xs with
  | nil => intro i d h; simp at h
  | cons x rest ih =>
      intro i d h
      cases i with
      | zero => simp [List.getD]
      | succ j =>
          have hj : j < rest.length := by
            simp only [List.length_cons] at h
            omega
          have := ih j d hj
          simp only [List.getD] at this ⊢
          exact List.mem_cons_of_mem _ (by simpa using this)

theorem break_preserves_inv (st : Station) (choice now : Nat) (h : Inv st) :
    Inv (break_random_locker st choice now).1 := by
  unfold break_random_locker
  dsimp only
  cases helig : (List.range st.lockers.length).filter
      (fun i => match st.lockers.get? i with
        | some l => l.is_functional && !l.is_occupied
        | none => false) with
  | nil =>
      dsimp only
      exact h
  | cons e0 erest =>
      dsimp only
      refine inv_of_eq ?_ (log_alert_parcels _ _ _ _) (log_alert_lockers _ _ _ _)
      refine inv_transfer ?_ ?_ h ?_
      · rfl
      · exact setBrokenAt_lockerKey st.lockers _
      intro l2 hl2 hocc
      rcases setBrokenAt_mem st.lockers
          ((e0 :: erest).getD (choice % (e0 :: erest).length) e0) l2 hl2 with
        h1 | ⟨l, hget, hl2eq⟩
      · exact h.1 l2 h1 hocc
      · exfalso
        have hi : (e0 :: erest).getD (choice % (e0 :: erest).length) e0 ∈
            e0 :: erest :=
          getD_mem_of_lt _ _ _ (Nat.mod_lt _ (by simp))
        have hpred : (match st.lockers.get?
            ((e0 :: erest).getD (choice % (e0 :: erest).length) e0) with
          | some l => l.is_functional && !l.is_occupied
          | none => false) = true := by
          have hmem : (e0 :: erest).getD (choice % (e0 :: erest).length) e0 ∈
              (List.range st.lockers.length).filter
                (fun i => match st.lockers.get? i with
                  | some l => l.is_functional && !l.is_occupied
                  | none => false) := by
            rw [helig]
            exact hi
          exact (List.mem_filter.mp hmem).2
        rw [hget] at hpred
        dsimp only at hpred
        simp only [Bool.and_eq_true, Bool.not_eq_true'] at hpred
        have hocc2 : l.is_occupied = true := by
          rw [hl2eq] at hocc
          exact hocc
        rw [hpred.2] at hocc2
        exact absurd hocc2 (by simp)

/-! `send_parcel` preserves the invariants. -/

theorem send_preserves_inv (st : Station) (p : Parcel) (u : String)
    (now : Nat) (h : Inv st) : Inv (send_parcel st p u now).1 := by
  rcases send_parcel_cases st p u now with
    ⟨_, hp, hl⟩ |
    ⟨_, hdup, l, pre, post, hfind, heq, hpre, hok, _, hlock, hpar⟩
  · exact inv_of_eq h hp hl
  · rcases h with ⟨h1, h2, h3, h4, h5⟩
    rcases lockerOk_spec hok with ⟨hlocc, hlfun, _⟩
    have hmeml : l ∈ st.lockers := by
      rw [heq]
      exact List.mem_append_right _ (List.mem_cons_self _ _)
    have hsub : ∀ x, x ∈ pre ∨ x ∈ post → x ∈ st.lockers := by
      intro x hx
      rw [heq]
      rcases hx with hx | hx
      · exact List.mem_append_left _ hx
      · exact List.mem_append_right _ (List.mem_cons_of_mem _ hx)
    have hnotin : ∀ x ∈ st.lockers, x.current_parcel ≠ some p.tracking_number := by
      intro x hx hcon
      rcases h3 x hx p.tracking_number hcon with ⟨q, hq1, _, _⟩
      rw [hdup] at hq1
      exact absurd hq1 (by simp)
    have hmem_new : ∀ l2, l2 ∈ (send_parcel st p u now).1.lockers →
        (l2 ∈ pre ∨ l2 ∈ post) ∨
          l2 = { l with is_occupied := true, current_parcel := some p.tracking_number } := by
      intro l2 hl2
      rw [hlock] at hl2
      rcases List.mem_append.mp hl2 with hx | hx
      · exact Or.inl (Or.inl hx)
      · rcases List.mem_cons.mp hx with hx | hx
        · exact Or.inr hx
        · exact Or.inl (Or.inr hx)
    refine ⟨?_, ?_, ?_, ?_, ?_⟩
    · intro l2 hl2 hocc
      rcases hmem_new l2 hl2 with hx | hx
      · exact h1 l2 (hsub l2 hx) hocc
      · rw [hx]
        exact hlfun
    · intro l2 hl2
      rcases hmem_new l2 hl2 with hx | hx
      · exact h2 l2 (hsub l2 hx)
      · rw [hx]
        rfl
    · intro l2 hl2 t ht
      rcases hmem_new l2 hl2 with hx | hx
      · have hne : t ≠ p.tracking_number := by
          intro hcon
          apply hnotin l2 (hsub l2 hx)
          rw [← hcon]
          exact ht
        rcases h3 l2 (hsub l2 hx) t ht with ⟨q, hq1, hq2, hq3⟩
        refine ⟨q, ?_, hq2, hq3⟩
        rw [hpar, alookup_aset_ne _ _ _ _ hne]
        exact hq1
      · rw [hx] at ht
        dsimp only at ht
        have htn : t = p.tracking_number := (Option.some_injective _ ht).symm
        subst htn
        refine ⟨place_in_locker p l.number now, ?_, ?_, Or.inl rfl⟩
        · rw [hpar]
          exact alookup_aset_self _ _ _
        · rw [hx]
          rfl
    · unfold numbersNodup
      have hmapnum : ((pre ++
          { l with is_occupied := true, current_parcel := some p.tracking_number } :: post).map
            Locker.number) = (pre ++ l :: post).map Locker.number := by
        simp
      rw [hlock, hmapnum, ← heq]
      exact h4
    · intro kv hkv
      rw [hpar] at hkv
      rcases mem_aset_key hkv with hold | hnew
      · rcases h5 kv hold with ⟨x, hx, hxref⟩
        have hxne : x ≠ l := by
          intro hcon
          rw [hcon] at hxref
          have : l.current_parcel.isSome = true := by
            rw [hxref]
            rfl
          rw [← h2 l hmeml] at this
          rw [hlocc] at this
          exact absurd this (by simp)
        have hxpp : x ∈ pre ∨ x ∈ post := by
          rw [heq] at hx
          rcases List.mem_append.mp hx with hy | hy
          · exact Or.inl hy
          · rcases List.mem_cons.mp hy with hy | hy
            · exact absurd hy hxne
            · exact Or.inr hy
        refine ⟨x, ?_, hxref⟩
        rw [hlock]
        rcases hxpp with hy | hy
        · exact List.mem_append_left _ hy
        · exact List.mem_append_right _ (List.mem_cons_of_mem _ hy)
      · refine ⟨{ l with is_occupied := true, current_parcel := some p.tracking_number },
          ?_, ?_⟩
        · rw [hlock]
          exact List.mem_append_right _ (List.mem_cons_self _ _)
        · rw [hnew]

/-! `receive_parcel` preserves the invariants. -/

theorem alookup_mem {α : Type} : ∀ (m : List (String × α)) (t : String)
    (q : α), alookup m t = some q → (t, q) ∈ m := by
  intro m
  induction m with
  | nil => intro t q h; simp [alookup] at h
  | cons kv rest ih =>
      rcases kv with ⟨k0, v0⟩
      intro t q h
      unfold alookup at h
      by_cases hk : k0 = t
      · rw [if_pos hk] at h
        have : v0 = q := Option.some_injective _ h
        subst this
        subst hk
        exact List.mem_cons_self _ _
      · rw [if_neg hk] at h
        exact List.mem_cons_of_mem _ (ih t q h)

/-- Branch trichotomy of `receive_parcel`: the call leaves index and
bank unchanged, or lazily expires the looked-up parcel in place, or
performs the full successful extraction. -/
theorem receive_parcel_cases (st : Station) (tr : String) (rcp : Person)
    (u : String) (now : Nat) :
    ((receive_parcel st tr rcp u now).1.parcels = st.parcels ∧
      (receive_parcel st tr rcp u now).1.lockers = st.lockers)
  ∨ ((receive_parcel st tr rcp u now).1.parcels =
        amodify st.parcels tr (fun q => { q with status := ParcelStatus.EXPIRED }) ∧
      (receive_parcel st tr rcp u now).1.lockers = st.lockers)
  ∨ (∃ parcel lk pre post t2,
      alookup st.parcels tr = some parcel ∧
      st.lockers = pre ++ lk :: post ∧
      parcel.locker_number = some lk.number ∧
      lk.current_parcel = some t2 ∧
      lk.is_occupied = true ∧
      (receive_parcel st tr rcp u now).1.lockers =
        pre ++ { lk with is_occupied := false, current_parcel := none } :: post ∧
      (receive_parcel st tr rcp u now).1.parcels =
        aremove (amodify st.parcels t2 (fun q => deliverParcel q now)) tr) := by
  have hpar := check_security_parcels st u now
  have hlockers := check_security_lockers st u now
  by_cases hgate : (check_security st u now).2.1 = true
  · cases hfound : alookup st.parcels tr with
    | none =>
        left
        unfold receive_parcel
        dsimp only
        rw [if_neg (by rw [hgate]; simp)]
        rw [if_neg (by rw [(check_security_pass st u now hgate).2]; simp)]
        rw [hpar, hfound]
        exact ⟨hpar, hlockers⟩
    | some parcel =>
        by_cases hauth : parcel.recipient.id ≠ rcp.id
        · left
          unfold receive_parcel
          dsimp only
          rw [if_neg (by rw [hgate]; simp)]
          rw [if_neg (by rw [(check_security_pass st u now hgate).2]; simp)]
          rw [hpar, hfound]
          dsimp only
          rw [if_pos hauth]
          constructor
          · rw [log_alert_parcels]
            exact hpar
          · rw [log_alert_lockers]
            exact hlockers
        · by_cases hstat : parcel.status ≠ ParcelStatus.IN_POSTOMAT
          · left
            unfold receive_parcel
            dsimp only
            rw [if_neg (by rw [hgate]; simp)]
            rw [if_neg (by rw [(check_security_pass st u now hgate).2]; simp)]
            rw [hpar, hfound]
            dsimp only
            rw [if_neg hauth, if_pos hstat]
            exact ⟨hpar, hlockers⟩
          · by_cases hexp : is_expired parcel now = true
            · right
              left
              unfold receive_parcel
              dsimp only
              rw [if_neg (by rw [hgate]; simp)]
              rw [if_neg (by rw [(check_security_pass st u now hgate).2]; simp)]
              rw [hpar, hfound]
              dsimp only
              rw [if_neg hauth, if_neg hstat, if_pos hexp]
              exact ⟨rfl, hlockers⟩
            · cases hfindl : st.lockers.find?
                  (fun l => parcel.locker_number = some l.number) with
              | none =>
                  left
                  unfold receive_parcel
                  dsimp only
                  rw [if_neg (by rw [hgate]; simp)]
                  rw [if_neg (by rw [(check_security_pass st u now hgate).2]; simp)]
                  rw [hpar, hfound]
                  dsimp only
                  rw [if_neg hauth, if_neg hstat, if_neg hexp]
                  rw [hlockers, hfindl]
                  exact ⟨hpar, hlockers⟩
              | some lk =>
                  rcases findQ_some_split hfindl
                      (fun l => { l with is_occupied := false, current_parcel := none }) with
                    ⟨pre, post, heq, hpre, hplk, hupd⟩
                  by_cases hfunc : lk.is_functional = true
                  · by_cases hocc : lk.is_occupied = true
                    · cases hcur : lk.current_parcel with
                      | none =>
                          left
                          unfold receive_parcel
                          dsimp only
                          rw [if_neg (by rw [hgate]; simp)]
                          rw [if_neg (by rw [(check_security_pass st u now hgate).2]; simp)]
                          rw [hpar, hfound]
                          dsimp only
                          rw [if_neg hauth, if_neg hstat, if_neg hexp]
                          rw [hlockers, hfindl]
                          dsimp only
                          rw [if_neg (by rw [hfunc]; simp)]
                          rw [if_neg (by rw [hocc]; simp)]
                          rw [hcur]
                          exact ⟨hpar, hlockers⟩
                      | some t2 =>
                          right
                          right
                          refine ⟨parcel, lk, pre, post, t2, rfl, heq,
                            by simpa using hplk, hcur, hocc, ?_, ?_⟩
                          all_goals
                            unfold receive_parcel
                            dsimp only
                            rw [if_neg (by rw [hgate]; simp)]
                            rw [if_neg (by rw [(check_security_pass st u now hgate).2]; simp)]
                            rw [hpar, hfound]
                            dsimp only
                            rw [if_neg hauth, if_neg hstat, if_neg hexp]
                            rw [hlockers, hfindl]
                            dsimp only
                            rw [if_neg (by rw [hfunc]; simp)]
                            rw [if_neg (by rw [hocc]; simp)]
                            rw [hcur]
                            try dsimp only
                          all_goals exact hupd
                    · left
                      unfold receive_parcel
                      dsimp only
                      rw [if_neg (by rw [hgate]; simp)]
                      rw [if_neg (by rw [(check_security_pass st u now hgate).2]; simp)]
                      rw [hpar, hfound]
                      dsimp only
                      rw [if_neg hauth, if_neg hstat, if_neg hexp]
                      rw [hlockers, hfindl]
                      dsimp only
                      rw [if_neg (by rw [hfunc]; simp)]
                      rw [if_pos (by rw [bool_eq_false_of_ne_true hocc]; rfl)]
                      exact ⟨hpar, hlockers⟩
                  · left
                    unfold receive_parcel
                    dsimp only
                    rw [if_neg (by rw [hgate]; simp)]
                    rw [if_neg (by rw [(check_security_pass st u now hgate).2]; simp)]
                    rw [hpar, hfound]
                    dsimp only
                    rw [if_neg hauth, if_neg hstat, if_neg hexp]
                    rw [hlockers, hfindl]
                    dsimp only
                    rw [if_pos (by rw [bool_eq_false_of_ne_true hfunc]; rfl)]
                    exact ⟨hpar, hlockers⟩
  · left
    unfold receive_parcel
    dsimp only
    rw [if_pos (by rw [bool_eq_false_of_ne_true hgate]; rfl)]
    exact ⟨hpar, hlockers⟩

theorem receive_preserves_inv (st : Station) (tr : String) (rcp : Person)
    (u : String) (now : Nat) (h : Inv st) :
    Inv (receive_parcel st tr rcp u now).1 := by
  rcases receive_parcel_cases st tr rcp u now with
    ⟨hp, hl⟩ | ⟨hp, hl⟩ |
    ⟨parcel, lk, pre, post, t2, hfound, heq, hpnum, hcur, hocc, hlock, hpar⟩
  · exact inv_of_eq h hp hl
  · rcases h with ⟨h1, h2, h3, h4, h5⟩
    refine ⟨?_, ?_, ?_, ?_, ?_⟩
    · intro l hl2
      rw [hl] at hl2
      exact h1 l hl2
    · intro l hl2
      rw [hl] at hl2
      exact h2 l hl2
    · intro l hl2 t ht
      rw [hl] at hl2
      rcases h3 l hl2 t ht with ⟨q, hq1, hq2, hq3⟩
      rw [hp]
      by_cases hteq : t = tr
      · subst hteq
        rw [alookup_amodify_self, hq1]
        exact ⟨_, rfl, hq2, Or.inr rfl⟩
      · rw [alookup_amodify_ne _ _ _ _ hteq]
        exact ⟨q, hq1, hq2, hq3⟩
    · unfold numbersNodup
      rw [hl]
      exact h4
    · intro kv hkv
      rw [hp] at hkv
      rcases mem_amodify_key hkv with ⟨v0, hv0⟩
      rcases h5 (kv.1, v0) hv0 with ⟨l, hl2, href⟩
      refine ⟨l, ?_, href⟩
      rw [hl]
      exact hl2
  · rcases h with ⟨h1, h2, h3, h4, h5⟩
    have hmemlk : lk ∈ st.lockers := by
      rw [heq]
      exact List.mem_append_right _ (List.mem_cons_self _ _)
    have hsub : ∀ x, x ∈ pre ∨ x ∈ post → x ∈ st.lockers := by
      intro x hx
      rw [heq]
      rcases hx with hx | hx
      · exact List.mem_append_left _ hx
      · exact List.mem_append_right _ (List.mem_cons_of_mem _ hx)
    have holders_eq : ∀ x ∈ st.lockers, ∀ y ∈ st.lockers, ∀ t',
        x.current_parcel = some t' → y.current_parcel = some t' → x = y := by
      intro x hx y hy t' hxr hyr
      rcases h3 x hx t' hxr with ⟨qx, hqx1, hqx2, _⟩
      rcases h3 y hy t' hyr with ⟨qy, hqy1, hqy2, _⟩
      rw [hqx1] at hqy1
      have hq : qx = qy := Option.some_injective _ hqy1
      subst hq
      rw [hqx2] at hqy2
      have hnum : x.number = y.number := Option.some_injective _ hqy2
      exact List.inj_on_of_nodup_map h4 hx hy hnum
    have ht2tr : t2 = tr := by
      have hkvmem : (tr, parcel) ∈ st.parcels := alookup_mem _ _ _ hfound
      rcases h5 (tr, parcel) hkvmem with ⟨lh, hlh, hlhref⟩
      rcases h3 lh hlh tr hlhref with ⟨q, hq1, hq2, _⟩
      rw [hfound] at hq1
      have hqp : q = parcel := (Option.some_injective _ hq1).symm
      subst hqp
      rw [hpnum] at hq2
      have hnum : lh.number = lk.number := (Option.some_injective _ hq2).symm
      have hlklh : lh = lk := List.inj_on_of_nodup_map h4 hlh hmemlk hnum
      rw [hlklh, hcur] at hlhref
      exact Option.some_injective _ hlhref
    rw [ht2tr] at hcur hpar
    have hno_pp_tr : ∀ x, (x ∈ pre ∨ x ∈ post) →
        x.current_parcel ≠ some tr := by
      intro x hx hcon
      have hxlk : x = lk := holders_eq x (hsub x hx) lk hmemlk tr hcon hcur
      have hnd := h4
      unfold numbersNodup at hnd
      rw [heq] at hnd
      rw [List.map_append, List.map_cons] at hnd
      rcases List.nodup_append.mp hnd with ⟨_, hnd2, hdisj⟩
      rcases hx with hy | hy
      · have hm : lk.number ∈ pre.map Locker.number := by
          rw [← hxlk]
          exact List.mem_map_of_mem _ hy
        exact hdisj hm (List.mem_cons_self _ _)
      · rw [List.nodup_cons] at hnd2
        apply hnd2.1
        rw [← hxlk]
        exact List.mem_map_of_mem _ hy
    have hmem_new : ∀ l2, l2 ∈ (receive_parcel st tr rcp u now).1.lockers →
        (l2 ∈ pre ∨ l2 ∈ post) ∨
          l2 = { lk with is_occupied := false, current_parcel := none } := by
      intro l2 hl2
      rw [hlock] at hl2
      rcases List.mem_append.mp hl2 with hx | hx
      · exact Or.inl (Or.inl hx)
      · rcases List.mem_cons.mp hx with hx | hx
        · exact Or.inr hx
        · exact Or.inl (Or.inr hx)
    refine ⟨?_, ?_, ?_, ?_, ?_⟩
    · intro l2 hl2 hoc
      rcases hmem_new l2 hl2 with hx | hx
      · exact h1 l2 (hsub l2 hx) hoc
      · rw [hx] at hoc
        exact absurd (show (false : Bool) = true from hoc) (by simp)
    · intro l2 hl2
      rcases hmem_new l2 hl2 with hx | hx
      · exact h2 l2 (hsub l2 hx)
      · rw [hx]
        rfl
    · intro l2 hl2 t ht
      rcases hmem_new l2 hl2 with hx | hx
      · have hne : t ≠ tr := by
          intro hcon
          subst hcon
          exact hno_pp_tr l2 hx ht
        rcases h3 l2 (hsub l2 hx) t ht with ⟨q, hq1, hq2, hq3⟩
        refine ⟨q, ?_, hq2, hq3⟩
        rw [hpar, alookup_aremove_ne _ _ _ hne,
          alookup_amodify_ne _ _ _ _ hne]
        exact hq1
      · rw [hx] at ht
        exact absurd (show (none : Option String) = some t from ht) (by simp)
    · unfold numbersNodup
      have hmapnum : ((pre ++
          { lk with is_occupied := false, current_parcel := none } :: post).map
            Locker.number) = (pre ++ lk :: post).map Locker.number := by
        simp
      rw [hlock, hmapnum, ← heq]
      exact h4
    · intro kv hkv
      rw [hpar] at hkv
      rcases mem_aremove hkv with ⟨hkv2, hkne⟩
      rcases mem_amodify_key hkv2 with ⟨v0, hv0⟩
      rcases h5 (kv.1, v0) hv0 with ⟨x, hx, hxref⟩
      have hxlk : x ≠ lk := by
        intro hcon
        rw [hcon, hcur] at hxref
        have heqtr : tr = kv.1 := Option.some_injective _ hxref
        exact hkne heqtr.symm
      have hxpp : x ∈ pre ∨ x ∈ post := by
        rw [heq] at hx
        rcases List.mem_append.mp hx with hy | hy
        · exact Or.inl hy
        · rcases List.mem_cons.mp hy with hy | hy
          · exact absurd hy hxlk
          · exact Or.inr hy
      refine ⟨x, ?_, hxref⟩
      rw [hlock]
      rcases hxpp with hy | hy
      · exact List.mem_append_left _ hy
      · exact List.mem_append_right _ (List.mem_cons_of_mem _ hy)

/-- Every reachable station state satisfies the full invariant. -/
theorem reachable_inv {st : Station} (h : Reachable st) : Inv st := by
  induction h with
  | init sid addr sizes level => exact inv_mkStation sid addr sizes level
  | step hr hs ih =>
      cases hs with
      | send p u now => exact send_preserves_inv _ p u now ih
      | receive t r u now => exact receive_preserves_inv _ t r u now ih
      | notify t m u now =>
          rcases notify_recipient_preserves _ t m u now with ⟨hp, hl⟩
          exact inv_of_eq ih hp hl
      | maintenance tech rolls now =>
          exact maintenance_preserves_inv _ tech rolls now ih
      | breakL choice now => exact break_preserves_inv _ choice now ih
      | reset => exact inv_of_eq ih rfl rfl
      | sweep now => exact sweep_preserves_inv _ now ih

/-! C10 and C1. -/

/-- C10: in every station state reachable from a freshly constructed
station through the public operations, every occupied locker is
functional. -/
theorem reachable_occupied_functional (st : Station) (h : Reachable st) :
    ∀ l ∈ st.lockers, l.is_occupied = true → l.is_functional = true :=
  (reachable_inv h).1

/-- The occupied first locker of `stationDemoAfterSend`. -/
def demoOccupiedLocker : Locker :=
  { number := 1
    size := ParcelSize.SMALL
    is_occupied := true
    is_functional := true
    current_parcel := some "ABC0123456789"
    last_maintenance := none }

/-- Witness for C10: in the reachable demo station the occupied locker
is functional. -/
theorem reachable_occupied_functional_witness :
    demoOccupiedLocker ∈ stationDemoAfterSend.lockers ∧
      demoOccupiedLocker.is_occupied = true ∧
      demoOccupiedLocker.is_functional = true := by
  have hreach : Reachable stationDemoAfterSend :=
    Reachable.step
      (Reachable.init "P1" "Минск" [ParcelSize.SMALL, ParcelSize.LARGE]
        SecurityLevel.MEDIUM)
      (Step.send _ parcelDemo "u" 0)
  have h := reachable_occupied_functional stationDemoAfterSend hreach
    demoOccupiedLocker (by decide) (by decide)
  exact ⟨by decide, by decide, h⟩

/-- C1 (amended): in every reachable station state, a locker's resident
parcel reference, when present, points to an indexed parcel whose
`locker_number` equals that locker's number and whose lifecycle state
is IN_STATION or EXPIRED (the sweep and the lazy-expire branch of
receive flip the resident parcel to EXPIRED in place). -/
theorem locker_resident_consistent (st : Station) (h : Reachable st) :
    ∀ l ∈ st.lockers, ∀ t, l.current_parcel = some t →
      ∃ q, alookup st.parcels t = some q ∧ q.locker_number = some l.number ∧
        (q.status = ParcelStatus.IN_POSTOMAT ∨
          q.status = ParcelStatus.EXPIRED) :=
  (reachable_inv h).2.2.1

/-- Witness for C1 (amended): the demo station's occupied locker points
at the indexed demo parcel, bound to locker 1 in an allowed state. -/
theorem locker_resident_consistent_witness :
    ∃ q, alookup stationDemoAfterSend.parcels "ABC0123456789" = some q ∧
      q.locker_number = some 1 ∧
      (q.status = ParcelStatus.IN_POSTOMAT ∨
        q.status = ParcelStatus.EXPIRED) := by
  have hreach : Reachable stationDemoAfterSend :=
    Reachable.step
      (Reachable.init "P1" "Минск" [ParcelSize.SMALL, ParcelSize.LARGE]
        SecurityLevel.MEDIUM)
      (Step.send _ parcelDemo "u" 0)
  exact locker_resident_consistent stationDemoAfterSend hreach
    demoOccupiedLocker (by decide) "ABC0123456789" (by decide)

/-- Counterexample to C1 as frozen: after a send followed by an expiry
sweep — a reachable state — locker 1 still holds its resident parcel
reference, but the referenced parcel's lifecycle state is EXPIRED, not
IN_STATION. -/
theorem locker_resident_counterexample :
    Reachable stationExpiredDemo
  ∧ ∃ l ∈ stationExpiredDemo.lockers, ∃ t q,
      l.current_parcel = some t ∧
      alookup stationExpiredDemo.parcels t = some q ∧
      q.status ≠ ParcelStatus.IN_POSTOMAT := by
  constructor
  · exact Reachable.step
      (Reachable.step
        (Reachable.init "P1" "Минск" [ParcelSize.SMALL, ParcelSize.LARGE]
          SecurityLevel.MEDIUM)
        (Step.send _ parcelDemo "u" 0))
      (Step.sweep _ 10)
  · refine ⟨demoOccupiedLocker, by decide, "ABC0123456789",
      { place_in_locker parcelDemo 1 0 with status := ParcelStatus.EXPIRED },
      by decide, by decide, by decide⟩

end PostomatModel
